import Mathlib

/-!
# Local lock arbitration of `consultopo` (go/vt/topo/consultopo/lock.go)

A shallow embedding of `Server.Lock`, `consulLockDescriptor.Unlock` and
`Server.unlock`.  The two functions are concurrent, so each is embedded as a
small-step function: one step is one mutex-guarded registry section (lookup,
lookup-and-insert, delete), one `close(li.done)`, one wake-up or cancellation
of the `select`, or the return of one external call (`ListDir`, `LockOpts`,
`l.Lock`, `li.lock.Unlock`).  The answer of the outside world to a step is an
`Outcome`.  Running the steps of one call back to back gives its sequential
behaviour; interleaving the steps of many calls gives the concurrent one.
-/

namespace consultopo

/-! ## Data model -/

/-- Go `error` values that are not nil.  `ErrNoNode` is the sentinel
`topo.ErrNoNode`; `ext` is any other error value handed back by a
collaborator, with its `Error()` text; `errorf` is a value built by
`fmt.Errorf`, with its text. -/
inductive Err where
  | ErrNoNode
  | ext (text : String)
  | errorf (text : String)
  deriving DecidableEq, Repr

/-- The `*api.Lock` built by `s.client.LockOpts(&api.LockOptions{Key, Value})`. -/
structure apiLock where
  Key : String
  Value : String
  deriving DecidableEq, Repr

/-- The struct `lockInstance`: the handle `lock` and the channel `done`.  The
channel carries no values, so its state is the number of `close(done)`
statements executed on it: `0` is open, anything else is closed. -/
structure lockInstance where
  lock : apiLock
  done : Nat
  deriving DecidableEq, Repr

/-- The struct `consulLockDescriptor` (lines 29-33); its field `s` is the one
server of the model. -/
structure consulLockDescriptor where
  lockPath : String
  deriving DecidableEq, Repr

/-- What the instrumented program does to the outside world and to the
registry, tagged with the call `t` that does it.  `release t li` is the call
`li.lock.Unlock()` on the handle of instance `li`; `delete` records the entry
that the `delete(s.locks, lockPath)` statement found under the path. -/
inductive Event where
  | ListDir (t : Nat) (dirPath : String)
  | LockOpts (t : Nat) (key value : String)
  | insert (t : Nat) (lockPath : String) (li : Nat)
  | acquire (t : Nat) (l : apiLock)
  | release (t : Nat) (li : Nat)
  | delete (t : Nat) (lockPath : String) (removed : Option Nat)
  | close (t : Nat) (li : Nat)
  deriving DecidableEq, Repr

/-- The part of `Server` that `lock.go` uses: the field `root`, the map
`locks` (its values are pointers, here indices into `insts`), the memory
`insts` holding every `lockInstance` allocated so far, and the event log
(newest event first).  The mutex `mu` is the atomicity of the steps. -/
structure Server where
  root : String
  locks : String → Option Nat
  insts : List lockInstance
  log : List Event

/-- Names of the package that `lock.go` uses and that are declared outside it:
the constant `locksFilename`, the library function `path.Join` and the
function `convertError`. -/
structure Env where
  locksFilename : String
  pathJoin : List String → String
  convertError : Err → Err

/-- Line 45: `lockPath := path.Join(s.root, dirPath, locksFilename)`. -/
def Env.lockPath (env : Env) (root dirPath : String) : String :=
  env.pathJoin [root, dirPath, env.locksFilename]

/-- The answer of the outside world to one step of a call. -/
inductive Outcome where
  /-- nothing is asked: a registry section, a close, a wake-up on `li.done` -/
  | internal
  /-- the external call of this step returns this error value (`none` is nil) -/
  | ret (err : Option Err)
  /-- the channel `ctx.Done()` fires and `ctx.Err()` is `err` -/
  | ctxDone (err : Err)
  deriving DecidableEq, Repr

/-- Map assignment `m[k] = v`. -/
def mapSet (m : String → Option Nat) (k : String) (v : Nat) : String → Option Nat :=
  fun q => if q = k then some v else m q

/-- Map deletion `delete(m, k)`. -/
def mapDelete (m : String → Option Nat) (k : String) : String → Option Nat :=
  fun q => if q = k then none else m q

/-- Append one event to the log. -/
def Server.emit (s : Server) (e : Event) : Server :=
  { s with log := e :: s.log }

/-- The statement `close(li.done)` by call `t`.  The flag tells whether the
channel was closed already, in which case Go panics. -/
def Server.close (s : Server) (t li : Nat) : Option (Server × Bool) :=
  match s.insts[li]? with
  | none => none
  | some inst =>
    some ({ s with insts := s.insts.set li { inst with done := inst.done + 1 },
                   log := Event.close t li :: s.log }, decide (inst.done ≠ 0))

/-- The error of line 42, `fmt.Errorf("cannot ListDir(%v) before locking: %v", dirPath, err)`,
for an `err` that is not `topo.ErrNoNode` (line 39 returns that one as it is). -/
def listDirError (dirPath : String) : Err → Err
  | Err.ErrNoNode => Err.ErrNoNode
  | Err.ext text => Err.errorf ("cannot ListDir(" ++ dirPath ++ ") before locking: " ++ text)
  | Err.errorf text => Err.errorf ("cannot ListDir(" ++ dirPath ++ ") before locking: " ++ text)

/-- The error of line 114, `fmt.Errorf("unlock: lock %v not held", lockPath)`. -/
def notHeldError (lockPath : String) : Err :=
  Err.errorf ("unlock: lock " ++ lockPath ++ " not held")

/-! ## `Server.Lock` -/

/-- Where a call of `Server.Lock` stands, with its live local variables. -/
inductive LockPC where
  /-- line 38, before `s.ListDir` returns -/
  | listDir (dirPath contents : String)
  /-- line 48, before `s.client.LockOpts` returns -/
  | lockOpts (dirPath contents : String)
  /-- lines 58-60 and 70-72 with 73-78: before the section that looks the path up -/
  | claim (lockPath : String) (l : apiLock)
  /-- lines 63-67: in the `select`, waiting on `li.done` and `ctx.Done()` -/
  | wait (lockPath : String) (l : apiLock) (li : Nat)
  /-- line 84: the instance is inserted, `l.Lock(ctx.Done())` has not returned -/
  | acquire (lockPath : String) (l : apiLock) (li : Nat)
  /-- lines 88-90: `l.Lock` failed with `err`, before `delete(s.locks, lockPath)` -/
  | giveUp (lockPath : String) (li : Nat) (err : Err)
  /-- line 91: before `close(li.done)` -/
  | wake (lockPath : String) (li : Nat) (err : Err)
  /-- the call has returned `(ld, err)` -/
  | ret (ld : Option consulLockDescriptor) (err : Option Err)
  /-- the call died in a runtime panic (close of a closed channel) -/
  | panicked
  deriving DecidableEq, Repr

/-- One step of `Server.Lock` (lines 36-101) by call `t`. -/
def Server.Lock (env : Env) (s : Server) (t : Nat) : LockPC → Outcome → Option (Server × LockPC)
  | LockPC.listDir dirPath contents, Outcome.ret none =>
    some (s.emit (Event.ListDir t dirPath), LockPC.lockOpts dirPath contents)
  | LockPC.listDir dirPath _, Outcome.ret (some err) =>
    if err = Err.ErrNoNode then
      some (s.emit (Event.ListDir t dirPath), LockPC.ret none (some err))
    else
      some (s.emit (Event.ListDir t dirPath), LockPC.ret none (some (listDirError dirPath err)))
  | LockPC.lockOpts dirPath contents, Outcome.ret none =>
    let lockPath := env.lockPath s.root dirPath
    some (s.emit (Event.LockOpts t lockPath contents), LockPC.claim lockPath ⟨lockPath, contents⟩)
  | LockPC.lockOpts dirPath contents, Outcome.ret (some err) =>
    let lockPath := env.lockPath s.root dirPath
    some (s.emit (Event.LockOpts t lockPath contents), LockPC.ret none (some err))
  | LockPC.claim lockPath l, Outcome.internal =>
    match s.locks lockPath with
    | some li => some (s, LockPC.wait lockPath l li)
    | none =>
      let li := s.insts.length
      some ({ s with insts := s.insts ++ [⟨l, 0⟩],
                     locks := mapSet s.locks lockPath li,
                     log := Event.insert t lockPath li :: s.log },
            LockPC.acquire lockPath l li)
  | LockPC.wait _ _ _, Outcome.ctxDone err =>
    some (s, LockPC.ret none (some (env.convertError err)))
  | LockPC.wait lockPath l li, Outcome.internal =>
    match s.insts[li]? with
    | some inst => if inst.done ≠ 0 then some (s, LockPC.claim lockPath l) else none
    | none => none
  | LockPC.acquire lockPath l _, Outcome.ret none =>
    some (s.emit (Event.acquire t l), LockPC.ret (some ⟨lockPath⟩) none)
  | LockPC.acquire lockPath l li, Outcome.ret (some err) =>
    some (s.emit (Event.acquire t l), LockPC.giveUp lockPath li err)
  | LockPC.giveUp lockPath li err, Outcome.internal =>
    some ({ s with locks := mapDelete s.locks lockPath,
                   log := Event.delete t lockPath (s.locks lockPath) :: s.log },
          LockPC.wake lockPath li err)
  | LockPC.wake _ li err, Outcome.internal =>
    match s.close t li with
    | some (s1, false) => some (s1, LockPC.ret none (some err))
    | some (s1, true) => some (s1, LockPC.panicked)
    | none => none
  | _, _ => none

/-! ## `Server.unlock` -/

/-- Where a call of `Server.unlock` stands, with its live local variables. -/
inductive UnlockPC where
  /-- lines 110-112, before the section that looks the path up -/
  | lookup (lockPath : String)
  /-- line 118, before `li.lock.Unlock()` returns -/
  | release (lockPath : String) (li : Nat)
  /-- lines 120-122, before `delete(s.locks, lockPath)` -/
  | delete (lockPath : String) (li : Nat) (unlockErr : Option Err)
  /-- line 123, before `close(li.done)` -/
  | close (lockPath : String) (li : Nat) (unlockErr : Option Err)
  /-- the call has returned `err` -/
  | ret (err : Option Err)
  /-- the call died in a runtime panic (close of a closed channel) -/
  | panicked
  deriving DecidableEq, Repr

/-- One step of `Server.unlock` (lines 109-126) by call `t`. -/
def Server.unlock (s : Server) (t : Nat) : UnlockPC → Outcome → Option (Server × UnlockPC)
  | UnlockPC.lookup lockPath, Outcome.internal =>
    match s.locks lockPath with
    | none => some (s, UnlockPC.ret (some (notHeldError lockPath)))
    | some li => some (s, UnlockPC.release lockPath li)
  | UnlockPC.release lockPath li, Outcome.ret unlockErr =>
    some (s.emit (Event.release t li), UnlockPC.delete lockPath li unlockErr)
  | UnlockPC.delete lockPath li unlockErr, Outcome.internal =>
    some ({ s with locks := mapDelete s.locks lockPath,
                   log := Event.delete t lockPath (s.locks lockPath) :: s.log },
          UnlockPC.close lockPath li unlockErr)
  | UnlockPC.close _ li unlockErr, Outcome.internal =>
    match s.close t li with
    | some (s1, false) => some (s1, UnlockPC.ret unlockErr)
    | some (s1, true) => some (s1, UnlockPC.panicked)
    | none => none
  | _, _ => none

/-- The method `consulLockDescriptor.Unlock` (lines 104-106): it enters
`s.unlock` with the descriptor's lock path. -/
def consulLockDescriptor.Unlock (ld : consulLockDescriptor) : UnlockPC :=
  UnlockPC.lookup ld.lockPath

/-! ## Sequential runs of one call -/

/-- Run call `t` of `Server.Lock` through the given outcomes, one step each,
with no other call in between. -/
def Server.LockRun (env : Env) (t : Nat) : List Outcome → Server × LockPC → Option (Server × LockPC)
  | [], c => some c
  | o :: os, c => (Server.Lock env c.1 t c.2 o).bind (Server.LockRun env t os)

/-- Run call `t` of `Server.unlock` through the given outcomes, one step each,
with no other call in between. -/
def Server.unlockRun (t : Nat) : List Outcome → Server × UnlockPC → Option (Server × UnlockPC)
  | [], c => some c
  | o :: os, c => (Server.unlock c.1 t c.2 o).bind (Server.unlockRun t os)

/-! ## The concurrent system -/

/-- A call in flight or finished. -/
inductive Call where
  | Lock (pc : LockPC)
  | unlock (pc : UnlockPC)
  deriving DecidableEq, Repr

/-- The server, the calls made so far (a call is named by its position), and
the callers whose descriptor has been passed to `Unlock`. -/
structure State where
  srv : Server
  calls : List Call
  unlocked : List Nat

/-- What can happen next: a caller enters `Lock`, a caller enters `Unlock` on
the descriptor that call `d` returned, or call `t` takes its next step. -/
inductive Action where
  | callLock (dirPath contents : String)
  | callUnlock (d : Nat)
  | run (t : Nat) (o : Outcome)
  deriving DecidableEq, Repr

/-- The process at start: an empty registry and no call. -/
def State.start (root : String) : State :=
  { srv := { root := root, locks := fun _ => none, insts := [], log := [] },
    calls := [], unlocked := [] }

/-- One action of the system; `none` when the action is not enabled. -/
def State.step (env : Env) (s : State) : Action → Option State
  | Action.callLock dirPath contents =>
    some { s with calls := s.calls ++ [Call.Lock (LockPC.listDir dirPath contents)] }
  | Action.callUnlock d =>
    match s.calls[d]? with
    | some (Call.Lock (LockPC.ret (some ld) _)) =>
      some { s with calls := s.calls ++ [Call.unlock ld.Unlock], unlocked := d :: s.unlocked }
    | _ => none
  | Action.run t o =>
    match s.calls[t]? with
    | some (Call.Lock pc) =>
      (Server.Lock env s.srv t pc o).map
        fun r => { s with srv := r.1, calls := s.calls.set t (Call.Lock r.2) }
    | some (Call.unlock pc) =>
      (Server.unlock s.srv t pc o).map
        fun r => { s with srv := r.1, calls := s.calls.set t (Call.unlock r.2) }
    | none => none

/-- Run a list of actions from a state. -/
def State.exec (env : Env) : List Action → State → Option State
  | [], s => some s
  | a :: tr, s => (s.step env a).bind (State.exec env tr)

/-- The targets of the `Unlock` calls of a trace, in order. -/
def unlockTargets : List Action → List Nat
  | [] => []
  | Action.callUnlock d :: tr => d :: unlockTargets tr
  | _ :: tr => unlockTargets tr

/-- Every descriptor is passed to `Unlock` at most once in the trace. -/
def UnlockedAtMostOnce (tr : List Action) : Prop :=
  (unlockTargets tr).Nodup

instance (tr : List Action) : Decidable (UnlockedAtMostOnce tr) :=
  inferInstanceAs (Decidable (unlockTargets tr).Nodup)

/-! ## Vocabulary of the invariants -/

/-- The lock path that a call claims: a `Lock` call from its insert until its
delete or its return, a returned descriptor until it is passed to `Unlock`,
and an `unlock` call until its delete.  `t` is the position of the call. -/
def Call.claims (unlocked : List Nat) (t : Nat) : Call → Option String
  | Call.Lock (LockPC.acquire lockPath _ _) => some lockPath
  | Call.Lock (LockPC.giveUp lockPath _ _) => some lockPath
  | Call.Lock (LockPC.ret (some ld) _) => if t ∈ unlocked then none else some ld.lockPath
  | Call.unlock (UnlockPC.lookup lockPath) => some lockPath
  | Call.unlock (UnlockPC.release lockPath _) => some lockPath
  | Call.unlock (UnlockPC.delete lockPath _ _) => some lockPath
  | _ => none

/-- The lock path that call `t` claims in state `s`: the call is past the
insert at `s.locks[P]` and not yet finished with the entry. -/
def State.claimant (s : State) (t : Nat) : Option String :=
  (s.calls[t]?).bind (Call.claims s.unlocked t)

/-- The calls that claim path `P` in state `s`. -/
def State.claimants (s : State) (P : String) : List Nat :=
  (List.range s.calls.length).filter fun t => decide (s.claimant t = some P)

/-- The path and the instance in the local variables `lockPath` and `li` of a
call that still has its delete ahead. -/
def Call.bound : Call → Option (String × Nat)
  | Call.Lock (LockPC.acquire lockPath _ li) => some (lockPath, li)
  | Call.Lock (LockPC.giveUp lockPath li _) => some (lockPath, li)
  | Call.unlock (UnlockPC.release lockPath li) => some (lockPath, li)
  | Call.unlock (UnlockPC.delete lockPath li _) => some (lockPath, li)
  | _ => none

/-- The path and the handle in the local variables of a `Lock` call that has
prepared its handle and not inserted it yet. -/
def Call.handle : Call → Option (String × apiLock)
  | Call.Lock (LockPC.claim lockPath l) => some (lockPath, l)
  | Call.Lock (LockPC.wait lockPath l _) => some (lockPath, l)
  | _ => none

/-- The instance that a call is about to close: the call is between its
delete and its `close(li.done)`. -/
def Call.closing : Call → Option Nat
  | Call.Lock (LockPC.wake _ li _) => some li
  | Call.unlock (UnlockPC.close _ li _) => some li
  | _ => none

/-- The call died in a runtime panic. -/
def Call.isPanicked : Call → Bool
  | Call.Lock LockPC.panicked => true
  | Call.unlock UnlockPC.panicked => true
  | _ => false

/-- Events that call `t` has behind it when it stands at this point. -/
def Call.past (t : Nat) : Call → List Event
  | Call.Lock (LockPC.acquire lockPath _ li) => [Event.insert t lockPath li]
  | Call.Lock (LockPC.giveUp lockPath li _) => [Event.insert t lockPath li]
  | Call.Lock (LockPC.wake lockPath li _) =>
    [Event.delete t lockPath (some li), Event.insert t lockPath li]
  | Call.unlock (UnlockPC.delete _ li _) => [Event.release t li]
  | Call.unlock (UnlockPC.close lockPath li _) =>
    [Event.delete t lockPath (some li), Event.release t li]
  | _ => []

/-- The event is a `close`. -/
def Event.isClose : Event → Bool
  | Event.close _ _ => true
  | _ => false

/-- Facts of every reachable state, whatever the callers do. -/
structure WF (s : State) : Prop where
  reg : ∀ P i, s.srv.locks P = some i → ∃ l, s.srv.insts[i]? = some ⟨l, 0⟩ ∧ l.Key = P
  own : ∀ c ∈ s.calls, ∀ P li, c.bound = some (P, li) →
    ∃ inst, s.srv.insts[li]? = some inst ∧ inst.lock.Key = P
  key : ∀ c ∈ s.calls, ∀ P l, c.handle = some (P, l) → l.Key = P
  gone : ∀ c ∈ s.calls, ∀ li, c.closing = some li →
    li < s.srv.insts.length ∧ ∀ Q, s.srv.locks Q ≠ some li

/-- Every `close` event of the log (newest first) comes after a `delete` by the
same call that removed that very instance from the registry, and that call is
the `Lock` call that inserted the instance or an `unlock` call that released
its handle. -/
def ClosedByRemover (log : List Event) : Prop :=
  ∀ post pre t li, log = post ++ Event.close t li :: pre →
    ∃ P, Event.delete t P (some li) ∈ pre ∧
      (Event.insert t P li ∈ pre ∨ Event.release t li ∈ pre)

/-- Facts of every state reached while each descriptor is passed to `Unlock`
at most once.  The last one is the life of an instance: it is registered with
its channel open, or the call that deleted it stands before its
`close(li.done)` with the channel still open, or the channel has been closed
once. -/
structure Inv (s : State) : Prop where
  held : ∀ (t : Nat) (c : Call), s.calls[t]? = some c →
    ∀ P, c.claims s.unlocked t = some P → (s.srv.locks P).isSome = true
  mine : ∀ (t : Nat) (c : Call), s.calls[t]? = some c →
    ∀ P li, c.bound = some (P, li) → s.srv.locks P = some li
  one : ∀ (t1 t2 : Nat) (c1 c2 : Call) (P : String),
    s.calls[t1]? = some c1 → s.calls[t2]? = some c2 →
    c1.claims s.unlocked t1 = some P → c2.claims s.unlocked t2 = some P → t1 = t2
  fresh : ∀ (t : Nat) (c : Call), s.calls[t]? = some c →
    ∀ li, c.closing = some li → ∃ l, s.srv.insts[li]? = some (lockInstance.mk l 0)
  closer : ∀ (t1 t2 : Nat) (c1 c2 : Call) (li : Nat),
    s.calls[t1]? = some c1 → s.calls[t2]? = some c2 →
    c1.closing = some li → c2.closing = some li → t1 = t2
  once : ∀ (i : Nat) (inst : lockInstance), s.srv.insts[i]? = some inst → inst.done ≤ 1
  alive : ∀ c ∈ s.calls, c.isPanicked = false
  past : ∀ (t : Nat) (c : Call), s.calls[t]? = some c → ∀ e ∈ c.past t, e ∈ s.srv.log
  order : ClosedByRemover s.srv.log
  life : ∀ (i : Nat) (inst : lockInstance), s.srv.insts[i]? = some inst →
    (inst.done = 0 ∧ ∃ P, s.srv.locks P = some i)
      ∨ (inst.done = 0 ∧ ∃ (t : Nat) (c : Call), s.calls[t]? = some c ∧ c.closing = some i)
      ∨ (inst.done = 1 ∧ ∃ t, Event.close t i ∈ s.srv.log)

/-- A step of call `t` from `(srv, c)` to `(srv1, c1)` that leaves the registry
and the instances alone. -/
structure Quiet (unl : List Nat) (t : Nat) (srv : Server) (c : Call) (srv1 : Server) (c1 : Call) :
    Prop where
  locks : srv1.locks = srv.locks
  insts : srv1.insts = srv.insts
  log : srv1.log = srv.log ∨ ∃ e, srv1.log = e :: srv.log ∧ e.isClose = false
  claims : ∀ P, c1.claims unl t = some P → c.claims unl t = some P
  bound : ∀ P li, c1.bound = some (P, li) → c.bound = some (P, li) ∨ srv.locks P = some li
  handle : ∀ P l, c1.handle = some (P, l) → c.handle = some (P, l) ∨ l.Key = P
  closing : c1.closing = none
  alive : c1.isPanicked = false
  past : ∀ e ∈ c1.past t, e ∈ c.past t ∨ e ∈ srv1.log
  before : c.closing = none

/-- The four kinds of step of a call: a quiet one, the insert of `Lock`, a
delete, a close. -/
inductive Eff (unl : List Nat) (t : Nat) (srv : Server) (c : Call) : Server → Call → Prop where
  | quiet (srv1 : Server) (c1 : Call) (h : Quiet unl t srv c srv1 c1) : Eff unl t srv c srv1 c1
  | insert (P : String) (l : apiLock) (hc : c = Call.Lock (LockPC.claim P l))
      (hfree : srv.locks P = none) :
      Eff unl t srv c
        { srv with insts := srv.insts ++ [⟨l, 0⟩],
                   locks := mapSet srv.locks P srv.insts.length,
                   log := Event.insert t P srv.insts.length :: srv.log }
        (Call.Lock (LockPC.acquire P l srv.insts.length))
  | delete (P : String) (li : Nat) (c1 : Call) (hb : c.bound = some (P, li))
      (hclosing : c1.closing = some li) (hclaims : c1.claims unl t = none)
      (hbound : c1.bound = none) (hhandle : c1.handle = none) (halive : c1.isPanicked = false)
      (hpast : c1.past t = Event.delete t P (some li) :: c.past t) :
      Eff unl t srv c
        { srv with locks := mapDelete srv.locks P,
                   log := Event.delete t P (srv.locks P) :: srv.log } c1
  | close (li : Nat) (inst : lockInstance) (c1 : Call) (hc : c.closing = some li)
      (hinst : srv.insts[li]? = some inst) (hclaims : c1.claims unl t = none)
      (hbound : c1.bound = none) (hhandle : c1.handle = none) (hclosing : c1.closing = none)
      (hpast : c1.past t = []) (hpanic : c1.isPanicked = true → inst.done ≠ 0)
      (hbehind : ∃ P, Event.delete t P (some li) ∈ c.past t ∧
        (Event.insert t P li ∈ c.past t ∨ Event.release t li ∈ c.past t)) :
      Eff unl t srv c
        { srv with insts := srv.insts.set li { inst with done := inst.done + 1 },
                   log := Event.close t li :: srv.log } c1

/-- Caller A takes the lock of `dirPath` (call 0) and unlocks (call 1); caller
B enters `Lock` for the same directory and inserts its instance, its acquire
outstanding (call 2); A calls `Unlock` again on its old descriptor, the release
returning `r` (call 3); then caller C enters `Lock` for the same directory and
goes through its lookup section (call 4). -/
def doubleUnlock (dirPath cA cB cC : String) (r : Option Err) : List Action :=
  [Action.callLock dirPath cA, Action.run 0 (Outcome.ret none), Action.run 0 (Outcome.ret none),
    Action.run 0 Outcome.internal, Action.run 0 (Outcome.ret none)] ++
  ([Action.callUnlock 0, Action.run 1 Outcome.internal, Action.run 1 (Outcome.ret none),
    Action.run 1 Outcome.internal, Action.run 1 Outcome.internal] ++
  ([Action.callLock dirPath cB, Action.run 2 (Outcome.ret none), Action.run 2 (Outcome.ret none),
    Action.run 2 Outcome.internal] ++
  ([Action.callUnlock 0, Action.run 3 Outcome.internal, Action.run 3 (Outcome.ret r),
    Action.run 3 Outcome.internal, Action.run 3 Outcome.internal] ++
  [Action.callLock dirPath cC, Action.run 4 (Outcome.ret none), Action.run 4 (Outcome.ret none),
    Action.run 4 Outcome.internal])))

/-! ## Concrete instances -/

/-- An environment for the examples: `path.Join` puts slashes between its
arguments, `convertError` is the identity. -/
def demoEnv : Env :=
  { locksFilename := "locks", pathJoin := fun xs => "/".intercalate xs, convertError := id }

/-- A server whose registry holds instance `0`, open, under `/r/a/locks`. -/
def demoServer : Server :=
  { root := "/r"
    locks := mapSet (fun _ => none) "/r/a/locks" 0
    insts := [⟨⟨"/r/a/locks", "x"⟩, 0⟩]
    log := [] }

/-- One caller enters `Lock` for directory `a`, passes the existence check,
gets its handle and inserts its instance; its acquire is outstanding. -/
def demoClaim : List Action :=
  [Action.callLock "a" "x", Action.run 0 (Outcome.ret none), Action.run 0 (Outcome.ret none),
   Action.run 0 Outcome.internal]

/-- The state that `demoClaim` reaches from the start with root `/r`. -/
def demoClaimed : State :=
  { srv := { root := "/r"
             locks := mapSet (fun _ => none) "/r/a/locks" 0
             insts := [⟨⟨"/r/a/locks", "x"⟩, 0⟩]
             log := [Event.insert 0 "/r/a/locks" 0, Event.LockOpts 0 "/r/a/locks" "x",
                     Event.ListDir 0 "a"] }
    calls := [Call.Lock (LockPC.acquire "/r/a/locks" ⟨"/r/a/locks", "x"⟩ 0)]
    unlocked := [] }

/-- One caller takes the lock of directory `a` and holds it. -/
def demoHold : List Action :=
  demoClaim ++ [Action.run 0 (Outcome.ret none)]

/-- The state that `demoHold` reaches from the start with root `/r`. -/
def demoHeld : State :=
  { srv := { root := "/r"
             locks := mapSet (fun _ => none) "/r/a/locks" 0
             insts := [⟨⟨"/r/a/locks", "x"⟩, 0⟩]
             log := [Event.acquire 0 ⟨"/r/a/locks", "x"⟩, Event.insert 0 "/r/a/locks" 0,
                     Event.LockOpts 0 "/r/a/locks" "x", Event.ListDir 0 "a"] }
    calls := [Call.Lock (LockPC.ret (some ⟨"/r/a/locks"⟩) none)]
    unlocked := [] }

/-- The holder of `demoHold` then unlocks, once, and the call runs to its end. -/
def demoRound : List Action :=
  demoHold ++ [Action.callUnlock 0, Action.run 1 Outcome.internal, Action.run 1 (Outcome.ret none),
    Action.run 1 Outcome.internal, Action.run 1 Outcome.internal]

/-- The state that `demoRound` reaches from the start with root `/r`. -/
def demoReleased : State :=
  { srv := { root := "/r"
             locks := mapDelete (mapSet (fun _ => none) "/r/a/locks" 0) "/r/a/locks"
             insts := [⟨⟨"/r/a/locks", "x"⟩, 1⟩]
             log := [Event.close 1 0, Event.delete 1 "/r/a/locks" (some 0), Event.release 1 0,
                     Event.acquire 0 ⟨"/r/a/locks", "x"⟩, Event.insert 0 "/r/a/locks" 0,
                     Event.LockOpts 0 "/r/a/locks" "x", Event.ListDir 0 "a"] }
    calls := [Call.Lock (LockPC.ret (some ⟨"/r/a/locks"⟩) none), Call.unlock (UnlockPC.ret none)]
    unlocked := [0] }

/-- While one caller holds the lock of directory `a`, a second caller enters
`Lock` for the same directory, finds the path taken, waits, and is cancelled. -/
def demoCancelled : List Action :=
  demoHold ++ [Action.callLock "a" "y", Action.run 1 (Outcome.ret none),
    Action.run 1 (Outcome.ret none), Action.run 1 Outcome.internal,
    Action.run 1 (Outcome.ctxDone (Err.ext "context canceled"))]

/-- After the round of `demoRound`, a second caller enters `Lock` for the same
directory, inserts its instance, and its acquire fails; it has done its delete
and stands before its `close(li.done)`. -/
def demoFailed : List Action :=
  demoRound ++ [Action.callLock "a" "y", Action.run 2 (Outcome.ret none),
    Action.run 2 (Outcome.ret none), Action.run 2 Outcome.internal,
    Action.run 2 (Outcome.ret (some (Err.ext "no session"))), Action.run 2 Outcome.internal]

/-- The state that `demoFailed` reaches from the start with root `/r`. -/
def demoWaking : State :=
  { srv := { root := "/r"
             locks := mapDelete (mapSet (mapDelete (mapSet (fun _ => none) "/r/a/locks" 0)
               "/r/a/locks") "/r/a/locks" 1) "/r/a/locks"
             insts := [⟨⟨"/r/a/locks", "x"⟩, 1⟩, ⟨⟨"/r/a/locks", "y"⟩, 0⟩]
             log := [Event.delete 2 "/r/a/locks" (some 1), Event.acquire 2 ⟨"/r/a/locks", "y"⟩,
                     Event.insert 2 "/r/a/locks" 1, Event.LockOpts 2 "/r/a/locks" "y",
                     Event.ListDir 2 "a",
                     Event.close 1 0, Event.delete 1 "/r/a/locks" (some 0), Event.release 1 0,
                     Event.acquire 0 ⟨"/r/a/locks", "x"⟩, Event.insert 0 "/r/a/locks" 0,
                     Event.LockOpts 0 "/r/a/locks" "x", Event.ListDir 0 "a"] }
    calls := [Call.Lock (LockPC.ret (some ⟨"/r/a/locks"⟩) none), Call.unlock (UnlockPC.ret none),
              Call.Lock (LockPC.wake "/r/a/locks" 1 (Err.ext "no session"))]
    unlocked := [0] }

/-! ## Sequential behaviour of one call -/

theorem mapDelete_mapSet (m : String → Option Nat) (k : String) (v : Nat) (h : m k = none) :
    mapDelete (mapSet m k v) k = m := by
  funext q
  by_cases hq : q = k
  · simp [mapDelete, hq, h]
  · simp [mapDelete, mapSet, hq]

/-- C2: `unlock` on a path with no registered instance returns the "lock not
held" error in its first step, whatever the server state; the server state
(registry, instances and their channels, log of external calls) is untouched,
and the lookup step has no other outcome. -/
theorem unlock_not_held (s : Server) (t : Nat) (P : String) (h : s.locks P = none) :
    Server.unlockRun t [Outcome.internal] (s, (consulLockDescriptor.mk P).Unlock)
        = some (s, UnlockPC.ret (some (notHeldError P)))
      ∧ ∀ o r, Server.unlock s t (UnlockPC.lookup P) o = some r →
          r = (s, UnlockPC.ret (some (notHeldError P))) := by
  constructor
  · simp [Server.unlockRun, Server.unlock, consulLockDescriptor.Unlock, h]
  · intro o r hr
    cases o <;> simp [Server.unlock, h] at hr
    exact hr.symm

theorem unlock_not_held_witness :
    demoServer.locks "/r/b/locks" = none ∧
      Server.unlockRun 7 [Outcome.internal] (demoServer, (consulLockDescriptor.mk "/r/b/locks").Unlock)
        = some (demoServer, UnlockPC.ret (some (notHeldError "/r/b/locks"))) :=
  ⟨by decide, (unlock_not_held demoServer 7 "/r/b/locks" (by decide)).1⟩

/-- C7: when `ListDir` reports `topo.ErrNoNode`, `Lock` returns no descriptor
and that very error value; the only event of the call is the `ListDir` itself
(no `LockOpts`), and registry and instances are as before, so the derived
lock path has an entry after the call exactly if it had one before. -/
theorem Lock_no_node (env : Env) (s : Server) (t : Nat) (dirPath contents : String) :
    ∃ s1, Server.LockRun env t [Outcome.ret (some Err.ErrNoNode)] (s, LockPC.listDir dirPath contents)
        = some (s1, LockPC.ret none (some Err.ErrNoNode))
      ∧ s1.locks = s.locks ∧ s1.insts = s.insts ∧ s1.root = s.root
      ∧ s1.log = Event.ListDir t dirPath :: s.log
      ∧ s1.locks (env.lockPath s.root dirPath) = s.locks (env.lockPath s.root dirPath) := by
  refine ⟨s.emit (Event.ListDir t dirPath), ?_, rfl, rfl, rfl, rfl, rfl⟩
  simp [Server.LockRun, Server.Lock]

/-- C6: a `Lock` call that finds an instance registered for its path goes to
the `select` without touching the server, and when `ctx.Done()` fires there it
returns no descriptor and `convertError(ctx.Err())`, again without touching the
server, whatever other calls did in between (`s2`): nothing is inserted, no
acquire is made, no channel is closed, the registry is as it was. -/
theorem Lock_cancelled_while_waiting (env : Env) (s s2 : Server) (t : Nat) (P : String)
    (l : apiLock) (li : Nat) (e : Err) (h : s.locks P = some li) :
    Server.Lock env s t (LockPC.claim P l) Outcome.internal = some (s, LockPC.wait P l li)
      ∧ Server.Lock env s2 t (LockPC.wait P l li) (Outcome.ctxDone e)
          = some (s2, LockPC.ret none (some (env.convertError e)))
      ∧ Server.LockRun env t [Outcome.internal, Outcome.ctxDone e] (s, LockPC.claim P l)
          = some (s, LockPC.ret none (some (env.convertError e))) := by
  simp [Server.LockRun, Server.Lock, h]

theorem Lock_cancelled_while_waiting_witness :
    demoServer.locks "/r/a/locks" = some 0 ∧
      Server.LockRun demoEnv 3 [Outcome.internal, Outcome.ctxDone (Err.ext "context canceled")]
          (demoServer, LockPC.claim "/r/a/locks" ⟨"/r/a/locks", "y"⟩)
        = some (demoServer, LockPC.ret none (some (Err.ext "context canceled"))) :=
  ⟨by decide, (Lock_cancelled_while_waiting demoEnv demoServer demoServer 3 "/r/a/locks"
      ⟨"/r/a/locks", "y"⟩ 0 (Err.ext "context canceled") (by decide)).2.2⟩

/-! ## Kinds of step -/

theorem Lock_eff (env : Env) (unl : List Nat) (srv : Server) (t : Nat) (pc : LockPC) (o : Outcome)
    (r : Server × LockPC) (h : Server.Lock env srv t pc o = some r) :
    Eff unl t srv (Call.Lock pc) r.1 (Call.Lock r.2) := by
  cases pc with
  | listDir d cts =>
    rcases o with _ | (_ | err) | e <;> simp only [Server.Lock] at h
    · simp at h
    · cases h
      refine Eff.quiet _ _ ⟨?_, ?_, ?_, ?_, ?_, ?_, ?_, ?_, ?_, ?_⟩ <;>
        simp [Call.claims, Call.bound, Call.handle, Call.past, Call.closing, Call.isPanicked,
          Server.emit, Event.isClose]
    · split at h <;> cases h <;>
        (refine Eff.quiet _ _ ⟨?_, ?_, ?_, ?_, ?_, ?_, ?_, ?_, ?_, ?_⟩ <;>
          simp [Call.claims, Call.bound, Call.handle, Call.past, Call.closing, Call.isPanicked,
            Server.emit, Event.isClose])
    · simp at h
  | lockOpts d cts =>
    rcases o with _ | (_ | err) | e <;> simp only [Server.Lock] at h
    · simp at h
    · cases h
      refine Eff.quiet _ _ ⟨?_, ?_, ?_, ?_, ?_, ?_, ?_, ?_, ?_, ?_⟩ <;>
        simp [Call.claims, Call.bound, Call.handle, Call.past, Call.closing, Call.isPanicked,
          Server.emit, Event.isClose]
    · cases h
      refine Eff.quiet _ _ ⟨?_, ?_, ?_, ?_, ?_, ?_, ?_, ?_, ?_, ?_⟩ <;>
        simp [Call.claims, Call.bound, Call.handle, Call.past, Call.closing, Call.isPanicked,
          Server.emit, Event.isClose]
    · simp at h
  | claim P l =>
    rcases o with _ | (_ | err) | e <;> simp only [Server.Lock] at h
    · split at h
      · cases h
        refine Eff.quiet _ _ ⟨?_, ?_, ?_, ?_, ?_, ?_, ?_, ?_, ?_, ?_⟩ <;>
          simp [Call.claims, Call.bound, Call.handle, Call.past, Call.closing, Call.isPanicked,
            Server.emit, Event.isClose]
      · cases h
        exact Eff.insert P l rfl (by assumption)
    all_goals simp at h
  | wait P l li =>
    rcases o with _ | (_ | err) | e <;> simp only [Server.Lock] at h
    · split at h
      · split at h
        · cases h
          refine Eff.quiet _ _ ⟨?_, ?_, ?_, ?_, ?_, ?_, ?_, ?_, ?_, ?_⟩ <;>
            simp [Call.claims, Call.bound, Call.handle, Call.past, Call.closing, Call.isPanicked,
              Server.emit, Event.isClose]
        · simp at h
      · simp at h
    · simp at h
    · simp at h
    · cases h
      refine Eff.quiet _ _ ⟨?_, ?_, ?_, ?_, ?_, ?_, ?_, ?_, ?_, ?_⟩ <;>
        simp [Call.claims, Call.bound, Call.handle, Call.past, Call.closing, Call.isPanicked,
          Server.emit, Event.isClose]
  | acquire P l li =>
    rcases o with _ | (_ | err) | e <;> simp only [Server.Lock] at h
    · simp at h
    · cases h
      refine Eff.quiet _ _ ⟨?_, ?_, ?_, ?_, ?_, ?_, ?_, ?_, ?_, ?_⟩ <;>
        simp [Call.claims, Call.bound, Call.handle, Call.past, Call.closing, Call.isPanicked,
          Server.emit, Event.isClose]
    · cases h
      refine Eff.quiet _ _ ⟨?_, ?_, ?_, ?_, ?_, ?_, ?_, ?_, ?_, ?_⟩ <;>
        simp [Call.claims, Call.bound, Call.handle, Call.past, Call.closing, Call.isPanicked,
          Server.emit, Event.isClose]
    · simp at h
  | giveUp P li err =>
    rcases o with _ | (_ | err) | e <;> simp only [Server.Lock] at h
    · cases h
      exact Eff.delete P li _ rfl rfl rfl rfl rfl rfl rfl
    all_goals simp at h
  | wake P li err =>
    rcases o with _ | (_ | err) | e <;> simp only [Server.Lock, Server.close] at h
    · cases hi : srv.insts[li]? with
      | none => simp [hi] at h
      | some inst =>
        simp only [hi] at h
        by_cases hd : inst.done = 0
        · simp [hd] at h
          cases h
          have := @Eff.close unl t srv (Call.Lock (LockPC.wake P li err)) li inst
            (Call.Lock (LockPC.ret none (some err))) rfl hi rfl rfl rfl rfl rfl
            (by simp [Call.isPanicked]) ⟨P, by simp [Call.past], by simp [Call.past]⟩
          simpa [hd] using this
        · simp [hd] at h
          cases h
          exact Eff.close li inst (Call.Lock LockPC.panicked) rfl hi rfl rfl rfl rfl rfl (fun _ => hd)
            ⟨P, by simp [Call.past], by simp [Call.past]⟩
    all_goals simp at h
  | ret ld err => cases o <;> simp [Server.Lock] at h
  | panicked => cases o <;> simp [Server.Lock] at h

theorem unlock_eff (unl : List Nat) (srv : Server) (t : Nat) (pc : UnlockPC) (o : Outcome)
    (r : Server × UnlockPC) (h : Server.unlock srv t pc o = some r) :
    Eff unl t srv (Call.unlock pc) r.1 (Call.unlock r.2) := by
  cases pc with
  | lookup P =>
    rcases o with _ | e | e <;> simp only [Server.unlock] at h
    · split at h
      · cases h
        refine Eff.quiet _ _ ⟨?_, ?_, ?_, ?_, ?_, ?_, ?_, ?_, ?_, ?_⟩ <;>
          simp [Call.claims, Call.bound, Call.handle, Call.past, Call.closing, Call.isPanicked,
            Server.emit, Event.isClose]
      · cases h
        refine Eff.quiet _ _ ⟨?_, ?_, ?_, ?_, ?_, ?_, ?_, ?_, ?_, ?_⟩ <;>
          simp [Call.claims, Call.bound, Call.handle, Call.past, Call.closing, Call.isPanicked,
            Server.emit, Event.isClose]
        assumption
    all_goals simp at h
  | release P li =>
    rcases o with _ | e | e <;> simp only [Server.unlock] at h
    · simp at h
    · cases h
      refine Eff.quiet _ _ ⟨?_, ?_, ?_, ?_, ?_, ?_, ?_, ?_, ?_, ?_⟩ <;>
        simp [Call.claims, Call.bound, Call.handle, Call.past, Call.closing, Call.isPanicked,
          Server.emit, Event.isClose]
    · simp at h
  | delete P li e =>
    rcases o with _ | e | e <;> simp only [Server.unlock] at h
    · cases h
      exact Eff.delete P li _ rfl rfl rfl rfl rfl rfl rfl
    all_goals simp at h
  | close P li e =>
    rcases o with _ | e1 | e1 <;> simp only [Server.unlock, Server.close] at h
    · cases hi : srv.insts[li]? with
      | none => simp [hi] at h
      | some inst =>
        simp only [hi] at h
        by_cases hd : inst.done = 0
        · simp [hd] at h
          cases h
          have := @Eff.close unl t srv (Call.unlock (UnlockPC.close P li e)) li inst
            (Call.unlock (UnlockPC.ret e)) rfl hi rfl rfl rfl rfl rfl
            (by simp [Call.isPanicked]) ⟨P, by simp [Call.past], by simp [Call.past]⟩
          simpa [hd] using this
        · simp [hd] at h
          cases h
          exact Eff.close li inst (Call.unlock UnlockPC.panicked) rfl hi rfl rfl rfl rfl rfl
            (fun _ => hd) ⟨P, by simp [Call.past], by simp [Call.past]⟩
    all_goals simp at h
  | ret e => cases o <;> simp [Server.unlock] at h
  | panicked => cases o <;> simp [Server.unlock] at h

theorem step_run (env : Env) (s s1 : State) (t : Nat) (o : Outcome)
    (h : s.step env (Action.run t o) = some s1) :
    ∃ c srv1 c1, s.calls[t]? = some c ∧
      s1 = { s with srv := srv1, calls := s.calls.set t c1 } ∧
      Eff s.unlocked t s.srv c srv1 c1 := by
  simp only [State.step] at h
  cases hc : s.calls[t]? with
  | none => simp [hc] at h
  | some c =>
    cases c with
    | Lock pc =>
      simp only [hc, Option.map_eq_some'] at h
      obtain ⟨r, hr, rfl⟩ := h
      exact ⟨_, r.1, Call.Lock r.2, rfl, rfl, Lock_eff env s.unlocked s.srv t pc o r hr⟩
    | unlock pc =>
      simp only [hc, Option.map_eq_some'] at h
      obtain ⟨r, hr, rfl⟩ := h
      exact ⟨_, r.1, Call.unlock r.2, rfl, rfl, unlock_eff s.unlocked s.srv t pc o r hr⟩

/-! ## List bookkeeping -/

theorem getElem?_set_cases {α : Type} (l : List α) (t u : Nat) (a b : α)
    (h : (l.set t a)[u]? = some b) : (u = t ∧ b = a) ∨ (u ≠ t ∧ l[u]? = some b) := by
  by_cases hu : t = u
  · subst hu
    rw [List.getElem?_set_self'] at h
    cases hl : l[t]? with
    | none => simp [hl] at h
    | some x => simp [hl] at h; exact Or.inl ⟨rfl, h.symm⟩
  · rw [List.getElem?_set_ne hu] at h
    exact Or.inr ⟨fun e => hu e.symm, h⟩

theorem getElem?_concat_cases {α : Type} (l : List α) (u : Nat) (a b : α)
    (h : (l ++ [a])[u]? = some b) : (u = l.length ∧ b = a) ∨ (u < l.length ∧ l[u]? = some b) := by
  by_cases hu : u < l.length
  · rw [List.getElem?_append_left hu] at h
    exact Or.inr ⟨hu, h⟩
  · have hle : l.length ≤ u := Nat.le_of_not_lt hu
    rw [List.getElem?_append_right hle] at h
    have hlt : u - l.length < 1 := by
      by_contra hc
      rw [List.getElem?_eq_none (by simpa using Nat.le_of_not_lt hc)] at h
      cases h
    have h0 : u - l.length = 0 := by omega
    rw [h0] at h
    simp at h
    exact Or.inl ⟨by omega, h.symm⟩

theorem getElem?_append_some {α : Type} (l l2 : List α) (i : Nat) (a : α) (h : l[i]? = some a) :
    (l ++ l2)[i]? = some a := by
  have hi : i < l.length := by
    rcases List.getElem?_eq_some.mp h with ⟨hi, _⟩
    exact hi
  rw [List.getElem?_append_left hi]
  exact h

theorem getElem?_lt {α : Type} (l : List α) (i : Nat) (a : α) (h : l[i]? = some a) :
    i < l.length := by
  rcases List.getElem?_eq_some.mp h with ⟨hi, _⟩
  exact hi

theorem bound_claims (unl : List Nat) (t : Nat) (c : Call) (P : String) (li : Nat)
    (h : c.bound = some (P, li)) : c.claims unl t = some P := by
  cases c with
  | Lock pc => cases pc <;> simp [Call.bound] at h <;> simp [Call.claims, h]
  | unlock pc => cases pc <;> simp [Call.bound] at h <;> simp [Call.claims, h]

theorem bound_closing (c : Call) (P : String) (li : Nat) (h : c.bound = some (P, li)) :
    c.closing = none := by
  cases c with
  | Lock pc => cases pc <;> simp [Call.bound] at h <;> rfl
  | unlock pc => cases pc <;> simp [Call.bound] at h <;> rfl

/-! ## Facts of every reachable state -/

theorem WF_start (root : String) : WF (State.start root) := by
  constructor <;> simp [State.start]

theorem WF_eff (s : State) (hwf : WF s) (t : Nat) (c c1 : Call) (srv1 : Server)
    (hc : s.calls[t]? = some c) (he : Eff s.unlocked t s.srv c srv1 c1) :
    WF { s with srv := srv1, calls := s.calls.set t c1 } := by
  have hcm : c ∈ s.calls := List.getElem?_mem hc
  cases he with
  | quiet _ _ q =>
    constructor
    · intro P i h
      simp only [q.locks, q.insts] at h ⊢
      exact hwf.reg P i h
    · intro c0 h0 P li hb
      simp only [q.insts]
      rcases List.mem_or_eq_of_mem_set h0 with h0 | h0
      · exact hwf.own c0 h0 P li hb
      · subst h0
        rcases q.bound P li hb with h1 | h1
        · exact hwf.own c hcm P li h1
        · obtain ⟨l, hl, hk⟩ := hwf.reg P li h1
          exact ⟨_, hl, hk⟩
    · intro c0 h0 P l hh
      rcases List.mem_or_eq_of_mem_set h0 with h0 | h0
      · exact hwf.key c0 h0 P l hh
      · subst h0
        rcases q.handle P l hh with h1 | h1
        · exact hwf.key c hcm P l h1
        · exact h1
    · intro c0 h0 li hcl
      simp only [q.locks, q.insts]
      rcases List.mem_or_eq_of_mem_set h0 with h0 | h0
      · exact hwf.gone c0 h0 li hcl
      · subst h0
        rw [q.closing] at hcl
        cases hcl
  | insert P l hcl hfree =>
    subst hcl
    have hkey : l.Key = P := hwf.key _ hcm P l rfl
    constructor
    · intro Q i h
      simp only [mapSet] at h ⊢
      by_cases hq : Q = P
      · subst hq
        simp at h
        subst h
        exact ⟨l, List.getElem?_concat_length _ _, hkey⟩
      · simp [hq] at h
        obtain ⟨l0, hl0, hk0⟩ := hwf.reg Q i h
        exact ⟨l0, getElem?_append_some _ _ _ _ hl0, hk0⟩
    · intro c0 h0 Q li hb
      rcases List.mem_or_eq_of_mem_set h0 with h0 | h0
      · obtain ⟨inst, hi, hk⟩ := hwf.own c0 h0 Q li hb
        exact ⟨inst, getElem?_append_some _ _ _ _ hi, hk⟩
      · subst h0
        simp only [Call.bound, Option.some.injEq, Prod.mk.injEq] at hb
        obtain ⟨rfl, rfl⟩ := hb
        exact ⟨⟨l, 0⟩, List.getElem?_concat_length _ _, hkey⟩
    · intro c0 h0 Q l0 hh
      rcases List.mem_or_eq_of_mem_set h0 with h0 | h0
      · exact hwf.key c0 h0 Q l0 hh
      · subst h0
        simp [Call.handle] at hh
    · intro c0 h0 li hcl
      rcases List.mem_or_eq_of_mem_set h0 with h0 | h0
      · obtain ⟨hlt, hno⟩ := hwf.gone c0 h0 li hcl
        refine ⟨by simp; omega, ?_⟩
        intro Q hQ
        simp only [mapSet] at hQ
        by_cases hq : Q = P
        · simp [hq] at hQ
          omega
        · simp [hq] at hQ
          exact hno Q hQ
      · subst h0
        simp [Call.closing] at hcl
  | delete P li _ hb hclosing hclaims hbound hhandle halive hpast =>
    obtain ⟨inst, hinst, hkey⟩ := hwf.own c hcm P li hb
    constructor
    · intro Q i h
      simp only [mapDelete] at h
      by_cases hq : Q = P
      · simp [hq] at h
      · simp [hq] at h
        exact hwf.reg Q i h
    · intro c0 h0 Q li0 hb0
      rcases List.mem_or_eq_of_mem_set h0 with h0 | h0
      · exact hwf.own c0 h0 Q li0 hb0
      · subst h0
        rw [hbound] at hb0
        cases hb0
    · intro c0 h0 Q l0 hh
      rcases List.mem_or_eq_of_mem_set h0 with h0 | h0
      · exact hwf.key c0 h0 Q l0 hh
      · subst h0
        rw [hhandle] at hh
        cases hh
    · intro c0 h0 li0 hcl
      rcases List.mem_or_eq_of_mem_set h0 with h0 | h0
      · obtain ⟨hlt, hno⟩ := hwf.gone c0 h0 li0 hcl
        refine ⟨hlt, ?_⟩
        intro Q hQ
        simp only [mapDelete] at hQ
        by_cases hq : Q = P
        · simp [hq] at hQ
        · simp [hq] at hQ
          exact hno Q hQ
      · subst h0
        rw [hclosing] at hcl
        cases hcl
        refine ⟨getElem?_lt _ _ _ hinst, ?_⟩
        intro Q hQ
        simp only [mapDelete] at hQ
        by_cases hq : Q = P
        · simp [hq] at hQ
        · simp [hq] at hQ
          obtain ⟨l0, hl0, hk0⟩ := hwf.reg Q li hQ
          rw [hinst] at hl0
          cases hl0
          exact hq (hk0.symm.trans hkey)
  | close li inst _ hcl hinst hclaims hbound hhandle hclosing hpast hpanic hbehind =>
    obtain ⟨hlt, hno⟩ := hwf.gone c hcm li hcl
    constructor
    · intro Q i h
      have hne : li ≠ i := by
        intro e
        subst e
        exact hno Q h
      obtain ⟨l0, hl0, hk0⟩ := hwf.reg Q i h
      exact ⟨l0, by simpa [List.getElem?_set_ne hne] using hl0, hk0⟩
    · intro c0 h0 Q li0 hb0
      rcases List.mem_or_eq_of_mem_set h0 with h0 | h0
      · obtain ⟨inst0, hi0, hk0⟩ := hwf.own c0 h0 Q li0 hb0
        by_cases hne : li = li0
        · subst hne
          rw [hinst] at hi0
          cases hi0
          exact ⟨⟨inst.lock, inst.done + 1⟩, by simp [List.getElem?_set_self hlt], hk0⟩
        · exact ⟨inst0, by simpa [List.getElem?_set_ne hne] using hi0, hk0⟩
      · subst h0
        rw [hbound] at hb0
        cases hb0
    · intro c0 h0 Q l0 hh
      rcases List.mem_or_eq_of_mem_set h0 with h0 | h0
      · exact hwf.key c0 h0 Q l0 hh
      · subst h0
        rw [hhandle] at hh
        cases hh
    · intro c0 h0 li0 hcl0
      rcases List.mem_or_eq_of_mem_set h0 with h0 | h0
      · simpa using hwf.gone c0 h0 li0 hcl0
      · subst h0
        rw [hclosing] at hcl0
        cases hcl0

theorem WF_spawn (s : State) (hwf : WF s) (c : Call) (unl : List Nat) (hb : c.bound = none)
    (hh : c.handle = none) (hcl : c.closing = none) :
    WF { s with calls := s.calls ++ [c], unlocked := unl } := by
  constructor
  · exact hwf.reg
  · intro c0 h0 P li hb0
    rcases List.mem_append.mp h0 with h0 | h0
    · exact hwf.own c0 h0 P li hb0
    · simp only [List.mem_singleton] at h0
      subst h0
      rw [hb] at hb0
      cases hb0
  · intro c0 h0 P l hh0
    rcases List.mem_append.mp h0 with h0 | h0
    · exact hwf.key c0 h0 P l hh0
    · simp only [List.mem_singleton] at h0
      subst h0
      rw [hh] at hh0
      cases hh0
  · intro c0 h0 li hcl0
    rcases List.mem_append.mp h0 with h0 | h0
    · exact hwf.gone c0 h0 li hcl0
    · simp only [List.mem_singleton] at h0
      subst h0
      rw [hcl] at hcl0
      cases hcl0

theorem WF_step (env : Env) (s s1 : State) (a : Action) (hwf : WF s)
    (h : s.step env a = some s1) : WF s1 := by
  cases a with
  | callLock dirPath contents =>
    simp only [State.step, Option.some.injEq] at h
    subst h
    exact WF_spawn s hwf _ s.unlocked rfl rfl rfl
  | callUnlock d =>
    simp only [State.step] at h
    split at h
    · simp only [Option.some.injEq] at h
      subst h
      exact WF_spawn s hwf _ _ rfl rfl rfl
    · cases h
  | run t o =>
    obtain ⟨c, srv1, c1, hc, rfl, he⟩ := step_run env s s1 t o h
    exact WF_eff s hwf t c c1 srv1 hc he

theorem WF_exec (env : Env) (tr : List Action) :
    ∀ (s s1 : State), WF s → State.exec env tr s = some s1 → WF s1 := by
  induction tr with
  | nil =>
    intro s s1 hwf h
    simp only [State.exec, Option.some.injEq] at h
    subst h
    exact hwf
  | cons a tr ih =>
    intro s s1 hwf h
    simp only [State.exec] at h
    cases hs : s.step env a with
    | none => simp [hs] at h
    | some s2 =>
      simp only [hs, Option.some_bind] at h
      exact ih s2 s1 (WF_step env s s2 a hwf hs) h

/-! ## Facts of states reached with each descriptor unlocked at most once -/

theorem ClosedByRemover_cons (log : List Event) (e : Event) (h : ClosedByRemover log)
    (he : e.isClose = false) : ClosedByRemover (e :: log) := by
  intro post pre t li hlog
  cases post with
  | nil =>
    simp only [List.nil_append, List.cons.injEq] at hlog
    rw [hlog.1] at he
    simp [Event.isClose] at he
  | cons x post =>
    simp only [List.cons_append, List.cons.injEq] at hlog
    exact h post pre t li hlog.2

theorem ClosedByRemover_close (log : List Event) (t li : Nat) (h : ClosedByRemover log)
    (hb : ∃ P, Event.delete t P (some li) ∈ log ∧
      (Event.insert t P li ∈ log ∨ Event.release t li ∈ log)) :
    ClosedByRemover (Event.close t li :: log) := by
  intro post pre u lj hlog
  cases post with
  | nil =>
    simp only [List.nil_append, List.cons.injEq, Event.close.injEq] at hlog
    obtain ⟨⟨rfl, rfl⟩, rfl⟩ := hlog
    exact hb
  | cons x post =>
    simp only [List.cons_append, List.cons.injEq] at hlog
    exact h post pre u lj hlog.2

theorem Inv_start (root : String) : Inv (State.start root) := by
  constructor <;> simp [State.start, ClosedByRemover]

theorem Inv_quiet (s : State) (hinv : Inv s) (t : Nat) (c c1 : Call) (srv1 : Server)
    (hc : s.calls[t]? = some c) (q : Quiet s.unlocked t s.srv c srv1 c1) :
    Inv { s with srv := srv1, calls := s.calls.set t c1 } := by
  have hsub : ∀ e ∈ s.srv.log, e ∈ srv1.log := by
    intro e he
    rcases q.log with h | ⟨x, h, _⟩
    · rw [h]; exact he
    · rw [h]; exact List.mem_cons_of_mem _ he
  have back : ∀ (u : Nat) (cu : Call), (s.calls.set t c1)[u]? = some cu →
      ∃ cv : Call, s.calls[u]? = some cv ∧
        (∀ P, cu.claims s.unlocked u = some P → cv.claims s.unlocked u = some P) := by
    intro u cu hu
    rcases getElem?_set_cases _ _ _ _ _ hu with ⟨rfl, rfl⟩ | ⟨_, h⟩
    · exact ⟨c, hc, q.claims⟩
    · exact ⟨cu, h, fun _ h => h⟩
  constructor
  · intro u cu hu P hP
    obtain ⟨cv, hv, hcl⟩ := back u cu hu
    simp only [q.locks]
    exact hinv.held u cv hv P (hcl P hP)
  · intro u cu hu P li hb
    simp only [q.locks]
    rcases getElem?_set_cases _ _ _ _ _ hu with ⟨rfl, rfl⟩ | ⟨_, h⟩
    · rcases q.bound P li hb with h1 | h1
      · exact hinv.mine u c hc P li h1
      · exact h1
    · exact hinv.mine u cu h P li hb
  · intro t1 t2 c1 c2 P h1 h2 hp1 hp2
    obtain ⟨cv1, hv1, hcl1⟩ := back t1 c1 h1
    obtain ⟨cv2, hv2, hcl2⟩ := back t2 c2 h2
    exact hinv.one t1 t2 cv1 cv2 P hv1 hv2 (hcl1 P hp1) (hcl2 P hp2)
  · intro u cu hu li hcl
    simp only [q.insts]
    rcases getElem?_set_cases _ _ _ _ _ hu with ⟨rfl, rfl⟩ | ⟨_, h⟩
    · rw [q.closing] at hcl
      cases hcl
    · exact hinv.fresh u cu h li hcl
  · intro t1 t2 c1 c2 li h1 h2 hl1 hl2
    rcases getElem?_set_cases _ _ _ _ _ h1 with ⟨rfl, rfl⟩ | ⟨_, h1⟩
    · rw [q.closing] at hl1
      cases hl1
    · rcases getElem?_set_cases _ _ _ _ _ h2 with ⟨rfl, rfl⟩ | ⟨_, h2⟩
      · rw [q.closing] at hl2
        cases hl2
      · exact hinv.closer t1 t2 c1 c2 li h1 h2 hl1 hl2
  · intro i inst hi
    simp only [q.insts] at hi
    exact hinv.once i inst hi
  · intro c0 h0
    rcases List.mem_or_eq_of_mem_set h0 with h0 | h0
    · exact hinv.alive c0 h0
    · subst h0
      exact q.alive
  · intro u cu hu e he
    rcases getElem?_set_cases _ _ _ _ _ hu with ⟨rfl, rfl⟩ | ⟨_, h⟩
    · rcases q.past e he with h1 | h1
      · exact hsub e (hinv.past u c hc e h1)
      · exact h1
    · exact hsub e (hinv.past u cu h e he)
  · show ClosedByRemover srv1.log
    rcases q.log with h | ⟨x, h, hx⟩
    · rw [h]; exact hinv.order
    · rw [h]; exact ClosedByRemover_cons _ _ hinv.order hx
  · intro i inst hi
    simp only [q.insts] at hi
    simp only [q.locks]
    rcases hinv.life i inst hi with h | ⟨hd, u, cu, hu, hcu⟩ | ⟨hd, u, hu⟩
    · exact Or.inl h
    · have hut : t ≠ u := by
        intro e
        subst e
        rw [hc] at hu
        cases hu
        rw [q.before] at hcu
        cases hcu
      exact Or.inr (Or.inl ⟨hd, u, cu, by simpa [List.getElem?_set_ne hut] using hu, hcu⟩)
    · exact Or.inr (Or.inr ⟨hd, u, hsub _ hu⟩)

theorem Inv_insert (s : State) (hinv : Inv s) (t : Nat) (P : String) (l : apiLock)
    (hc : s.calls[t]? = some (Call.Lock (LockPC.claim P l))) (hfree : s.srv.locks P = none) :
    Inv { s with
      srv := { s.srv with insts := s.srv.insts ++ [⟨l, 0⟩],
                          locks := mapSet s.srv.locks P s.srv.insts.length,
                          log := Event.insert t P s.srv.insts.length :: s.srv.log },
      calls := s.calls.set t (Call.Lock (LockPC.acquire P l s.srv.insts.length)) } := by
  have others : ∀ (u : Nat) (cu : Call) (Q : String), s.calls[u]? = some cu →
      cu.claims s.unlocked u = some Q → Q ≠ P := by
    intro u cu Q hu hQ e
    subst e
    have := hinv.held u cu hu Q hQ
    rw [hfree] at this
    cases this
  constructor
  · intro u cu hu Q hQ
    simp only [mapSet]
    rcases getElem?_set_cases _ _ _ _ _ hu with ⟨rfl, rfl⟩ | ⟨_, h⟩
    · simp only [Call.claims, Option.some.injEq] at hQ
      subst hQ
      simp
    · have hne := others u cu Q h hQ
      simp only [hne, if_false]
      exact hinv.held u cu h Q hQ
  · intro u cu hu Q li hb
    simp only [mapSet]
    rcases getElem?_set_cases _ _ _ _ _ hu with ⟨rfl, rfl⟩ | ⟨_, h⟩
    · simp only [Call.bound, Option.some.injEq, Prod.mk.injEq] at hb
      obtain ⟨rfl, rfl⟩ := hb
      simp
    · have hne := others u cu Q h (bound_claims _ _ _ _ _ hb)
      simp only [hne, if_false]
      exact hinv.mine u cu h Q li hb
  · intro t1 t2 c1 c2 Q h1 h2 hp1 hp2
    rcases getElem?_set_cases _ _ _ _ _ h1 with ⟨rfl, rfl⟩ | ⟨hn1, k1⟩
    · rcases getElem?_set_cases _ _ _ _ _ h2 with ⟨rfl, rfl⟩ | ⟨hn2, k2⟩
      · rfl
      · simp only [Call.claims, Option.some.injEq] at hp1
        subst hp1
        exact absurd rfl (others t2 c2 P k2 hp2)
    · rcases getElem?_set_cases _ _ _ _ _ h2 with ⟨rfl, rfl⟩ | ⟨hn2, k2⟩
      · simp only [Call.claims, Option.some.injEq] at hp2
        subst hp2
        exact absurd rfl (others t1 c1 P k1 hp1)
      · exact hinv.one t1 t2 c1 c2 Q k1 k2 hp1 hp2
  · intro u cu hu li hcl
    rcases getElem?_set_cases _ _ _ _ _ hu with ⟨rfl, rfl⟩ | ⟨_, h⟩
    · simp [Call.closing] at hcl
    · obtain ⟨l0, hl0⟩ := hinv.fresh u cu h li hcl
      exact ⟨l0, getElem?_append_some _ _ _ _ hl0⟩
  · intro t1 t2 c1 c2 li h1 h2 hl1 hl2
    rcases getElem?_set_cases _ _ _ _ _ h1 with ⟨rfl, rfl⟩ | ⟨_, h1⟩
    · simp [Call.closing] at hl1
    · rcases getElem?_set_cases _ _ _ _ _ h2 with ⟨rfl, rfl⟩ | ⟨_, h2⟩
      · simp [Call.closing] at hl2
      · exact hinv.closer t1 t2 c1 c2 li h1 h2 hl1 hl2
  · intro i inst hi
    rcases getElem?_concat_cases _ _ _ _ hi with ⟨_, rfl⟩ | ⟨_, h⟩
    · exact Nat.zero_le _
    · exact hinv.once i inst h
  · intro c0 h0
    rcases List.mem_or_eq_of_mem_set h0 with h0 | h0
    · exact hinv.alive c0 h0
    · subst h0
      rfl
  · intro u cu hu e he
    rcases getElem?_set_cases _ _ _ _ _ hu with ⟨rfl, rfl⟩ | ⟨_, h⟩
    · simp only [Call.past, List.mem_singleton] at he
      subst he
      exact List.mem_cons_self _ _
    · exact List.mem_cons_of_mem _ (hinv.past u cu h e he)
  · exact ClosedByRemover_cons _ _ hinv.order rfl
  · intro i inst hi
    rcases getElem?_concat_cases _ _ _ _ hi with ⟨rfl, rfl⟩ | ⟨_, h⟩
    · exact Or.inl ⟨rfl, P, by simp [mapSet]⟩
    · rcases hinv.life i inst h with ⟨hd, Q, hQ⟩ | ⟨hd, u, cu, hu, hcu⟩ | ⟨hd, u, hu⟩
      · have hne : Q ≠ P := by
          intro e
          subst e
          rw [hfree] at hQ
          cases hQ
        exact Or.inl ⟨hd, Q, by simpa [mapSet, hne] using hQ⟩
      · have hut : t ≠ u := by
          intro e
          subst e
          rw [hc] at hu
          cases hu
          simp [Call.closing] at hcu
        exact Or.inr (Or.inl ⟨hd, u, cu, by simpa [List.getElem?_set_ne hut] using hu, hcu⟩)
      · exact Or.inr (Or.inr ⟨hd, u, List.mem_cons_of_mem _ hu⟩)

theorem Inv_delete (s : State) (hwf : WF s) (hinv : Inv s) (t : Nat) (c c1 : Call) (P : String)
    (li : Nat) (hc : s.calls[t]? = some c) (hb : c.bound = some (P, li))
    (hclosing : c1.closing = some li) (hclaims : c1.claims s.unlocked t = none)
    (hbound : c1.bound = none) (halive : c1.isPanicked = false)
    (hpast : c1.past t = Event.delete t P (some li) :: c.past t) :
    Inv { s with
      srv := { s.srv with locks := mapDelete s.srv.locks P,
                          log := Event.delete t P (s.srv.locks P) :: s.srv.log },
      calls := s.calls.set t c1 } := by
  have hreg : s.srv.locks P = some li := hinv.mine t c hc P li hb
  have others : ∀ (u : Nat) (cu : Call) (Q : String), u ≠ t → s.calls[u]? = some cu →
      cu.claims s.unlocked u = some Q → Q ≠ P := by
    intro u cu Q hne hu hQ e
    subst e
    exact hne (hinv.one u t cu c Q hu hc hQ (bound_claims _ _ _ _ _ hb))
  constructor
  · intro u cu hu Q hQ
    rcases getElem?_set_cases _ _ _ _ _ hu with ⟨rfl, rfl⟩ | ⟨hne, h⟩
    · rw [hclaims] at hQ
      cases hQ
    · simp only [mapDelete, others u cu Q hne h hQ, if_false]
      exact hinv.held u cu h Q hQ
  · intro u cu hu Q lj hbu
    rcases getElem?_set_cases _ _ _ _ _ hu with ⟨rfl, rfl⟩ | ⟨hne, h⟩
    · rw [hbound] at hbu
      cases hbu
    · simp only [mapDelete, others u cu Q hne h (bound_claims _ _ _ _ _ hbu), if_false]
      exact hinv.mine u cu h Q lj hbu
  · intro t1 t2 c1 c2 Q h1 h2 hp1 hp2
    rcases getElem?_set_cases _ _ _ _ _ h1 with ⟨rfl, rfl⟩ | ⟨_, h1⟩
    · rw [hclaims] at hp1
      cases hp1
    · rcases getElem?_set_cases _ _ _ _ _ h2 with ⟨rfl, rfl⟩ | ⟨_, h2⟩
      · rw [hclaims] at hp2
        cases hp2
      · exact hinv.one t1 t2 c1 c2 Q h1 h2 hp1 hp2
  · intro u cu hu lj hcl
    rcases getElem?_set_cases _ _ _ _ _ hu with ⟨rfl, rfl⟩ | ⟨_, h⟩
    · rw [hclosing] at hcl
      cases hcl
      obtain ⟨l0, hl0, _⟩ := hwf.reg P li hreg
      exact ⟨l0, hl0⟩
    · exact hinv.fresh u cu h lj hcl
  · intro t1 t2 c1 c2 lj h1 h2 hl1 hl2
    rcases getElem?_set_cases _ _ _ _ _ h1 with ⟨rfl, rfl⟩ | ⟨_, k1⟩
    · rcases getElem?_set_cases _ _ _ _ _ h2 with ⟨rfl, rfl⟩ | ⟨_, k2⟩
      · rfl
      · rw [hclosing] at hl1
        cases hl1
        exact absurd hreg ((hwf.gone c2 (List.getElem?_mem k2) li hl2).2 P)
    · rcases getElem?_set_cases _ _ _ _ _ h2 with ⟨rfl, rfl⟩ | ⟨_, k2⟩
      · rw [hclosing] at hl2
        cases hl2
        exact absurd hreg ((hwf.gone c1 (List.getElem?_mem k1) li hl1).2 P)
      · exact hinv.closer t1 t2 c1 c2 lj k1 k2 hl1 hl2
  · exact hinv.once
  · intro c0 h0
    rcases List.mem_or_eq_of_mem_set h0 with h0 | h0
    · exact hinv.alive c0 h0
    · subst h0
      exact halive
  · intro u cu hu e he
    rcases getElem?_set_cases _ _ _ _ _ hu with ⟨rfl, rfl⟩ | ⟨_, h⟩
    · rw [hpast] at he
      rcases List.mem_cons.mp he with he | he
      · subst he
        show _ ∈ Event.delete u P (s.srv.locks P) :: s.srv.log
        rw [hreg]
        exact List.mem_cons_self _ _
      · exact List.mem_cons_of_mem _ (hinv.past u c hc e he)
    · exact List.mem_cons_of_mem _ (hinv.past u cu h e he)
  · exact ClosedByRemover_cons _ _ hinv.order rfl
  · intro i inst hi
    have hi0 : s.srv.insts[i]? = some inst := hi
    rcases hinv.life i inst hi0 with ⟨hd, Q, hQ⟩ | ⟨hd, u, cu, hu, hcu⟩ | ⟨hd, u, hu⟩
    · by_cases hq : Q = P
      · subst hq
        rw [hreg] at hQ
        cases hQ
        exact Or.inr (Or.inl ⟨hd, t, c1,
          List.getElem?_set_self (getElem?_lt _ _ _ hc), hclosing⟩)
      · exact Or.inl ⟨hd, Q, by simpa [mapDelete, hq] using hQ⟩
    · have hut : t ≠ u := by
        intro e
        subst e
        rw [hc] at hu
        cases hu
        rw [bound_closing _ _ _ hb] at hcu
        cases hcu
      exact Or.inr (Or.inl ⟨hd, u, cu, by simpa [List.getElem?_set_ne hut] using hu, hcu⟩)
    · exact Or.inr (Or.inr ⟨hd, u, List.mem_cons_of_mem _ hu⟩)

theorem Inv_close (s : State) (hinv : Inv s) (t : Nat) (c c1 : Call) (li : Nat)
    (inst : lockInstance) (hc : s.calls[t]? = some c) (hcl : c.closing = some li)
    (hinst : s.srv.insts[li]? = some inst) (hclaims : c1.claims s.unlocked t = none)
    (hbound : c1.bound = none) (hclosing : c1.closing = none) (hpast : c1.past t = [])
    (hpanic : c1.isPanicked = true → inst.done ≠ 0)
    (hbehind : ∃ P, Event.delete t P (some li) ∈ c.past t ∧
      (Event.insert t P li ∈ c.past t ∨ Event.release t li ∈ c.past t)) :
    Inv { s with
      srv := { s.srv with insts := s.srv.insts.set li { inst with done := inst.done + 1 },
                          log := Event.close t li :: s.srv.log },
      calls := s.calls.set t c1 } := by
  have hopen : inst.done = 0 := by
    obtain ⟨l0, hl0⟩ := hinv.fresh t c hc li hcl
    rw [hinst] at hl0
    cases hl0
    rfl
  constructor
  · intro u cu hu Q hQ
    rcases getElem?_set_cases _ _ _ _ _ hu with ⟨rfl, rfl⟩ | ⟨_, h⟩
    · rw [hclaims] at hQ
      cases hQ
    · exact hinv.held u cu h Q hQ
  · intro u cu hu Q lj hbu
    rcases getElem?_set_cases _ _ _ _ _ hu with ⟨rfl, rfl⟩ | ⟨_, h⟩
    · rw [hbound] at hbu
      cases hbu
    · exact hinv.mine u cu h Q lj hbu
  · intro t1 t2 c1 c2 Q h1 h2 hp1 hp2
    rcases getElem?_set_cases _ _ _ _ _ h1 with ⟨rfl, rfl⟩ | ⟨_, h1⟩
    · rw [hclaims] at hp1
      cases hp1
    · rcases getElem?_set_cases _ _ _ _ _ h2 with ⟨rfl, rfl⟩ | ⟨_, h2⟩
      · rw [hclaims] at hp2
        cases hp2
      · exact hinv.one t1 t2 c1 c2 Q h1 h2 hp1 hp2
  · intro u cu hu lj hclu
    rcases getElem?_set_cases _ _ _ _ _ hu with ⟨rfl, rfl⟩ | ⟨hne, h⟩
    · rw [hclosing] at hclu
      cases hclu
    · have hlj : li ≠ lj := by
        intro e
        subst e
        exact hne (hinv.closer u t cu c li h hc hclu hcl)
      obtain ⟨l0, hl0⟩ := hinv.fresh u cu h lj hclu
      exact ⟨l0, by simpa [List.getElem?_set_ne hlj] using hl0⟩
  · intro t1 t2 c1 c2 lj h1 h2 hl1 hl2
    rcases getElem?_set_cases _ _ _ _ _ h1 with ⟨rfl, rfl⟩ | ⟨_, h1⟩
    · rw [hclosing] at hl1
      cases hl1
    · rcases getElem?_set_cases _ _ _ _ _ h2 with ⟨rfl, rfl⟩ | ⟨_, h2⟩
      · rw [hclosing] at hl2
        cases hl2
      · exact hinv.closer t1 t2 c1 c2 lj h1 h2 hl1 hl2
  · intro i inst0 hi
    rcases getElem?_set_cases _ _ _ _ _ hi with ⟨_, rfl⟩ | ⟨_, h⟩
    · simp [hopen]
    · exact hinv.once i inst0 h
  · intro c0 h0
    rcases List.mem_or_eq_of_mem_set h0 with h0 | h0
    · exact hinv.alive c0 h0
    · subst h0
      cases hp : c0.isPanicked with
      | false => rfl
      | true => exact absurd hopen (hpanic hp)
  · intro u cu hu e he
    rcases getElem?_set_cases _ _ _ _ _ hu with ⟨rfl, rfl⟩ | ⟨_, h⟩
    · rw [hpast] at he
      cases he
    · exact List.mem_cons_of_mem _ (hinv.past u cu h e he)
  · refine ClosedByRemover_close _ _ _ hinv.order ?_
    obtain ⟨Q, hd, hr⟩ := hbehind
    refine ⟨Q, hinv.past t c hc _ hd, ?_⟩
    rcases hr with hr | hr
    · exact Or.inl (hinv.past t c hc _ hr)
    · exact Or.inr (hinv.past t c hc _ hr)
  · intro i inst0 hi
    rcases getElem?_set_cases _ _ _ _ _ hi with ⟨rfl, rfl⟩ | ⟨hne, h⟩
    · exact Or.inr (Or.inr ⟨by simp [hopen], t, List.mem_cons_self _ _⟩)
    · rcases hinv.life i inst0 h with hreg | ⟨hd, u, cu, hu, hcu⟩ | ⟨hd, u, hu⟩
      · exact Or.inl hreg
      · have hut : t ≠ u := by
          intro e
          subst e
          rw [hc] at hu
          cases hu
          rw [hcl] at hcu
          cases hcu
          exact hne rfl
        exact Or.inr (Or.inl ⟨hd, u, cu, by simpa [List.getElem?_set_ne hut] using hu, hcu⟩)
      · exact Or.inr (Or.inr ⟨hd, u, List.mem_cons_of_mem _ hu⟩)

theorem Inv_eff (s : State) (hwf : WF s) (hinv : Inv s) (t : Nat) (c c1 : Call) (srv1 : Server)
    (hc : s.calls[t]? = some c) (he : Eff s.unlocked t s.srv c srv1 c1) :
    Inv { s with srv := srv1, calls := s.calls.set t c1 } := by
  cases he with
  | quiet _ _ q => exact Inv_quiet s hinv t c c1 srv1 hc q
  | insert P l hcl hfree =>
    subst hcl
    exact Inv_insert s hinv t P l hc hfree
  | delete P li _ hb hclosing hclaims hbound hhandle halive hpast =>
    exact Inv_delete s hwf hinv t c c1 P li hc hb hclosing hclaims hbound halive hpast
  | close li inst _ hcl hinst hclaims hbound hhandle hclosing hpast hpanic hbehind =>
    exact Inv_close s hinv t c c1 li inst hc hcl hinst hclaims hbound hclosing hpast hpanic hbehind

theorem claims_cons (c : Call) (d : Nat) (unl : List Nat) (u : Nat) (Q : String)
    (h : c.claims (d :: unl) u = some Q) : c.claims unl u = some Q := by
  cases c with
  | Lock pc =>
    cases pc with
    | ret ld err =>
      cases ld with
      | none => simp [Call.claims] at h
      | some ld =>
        simp only [Call.claims] at h ⊢
        split at h
        · cases h
        · rename_i hn
          have : u ∉ unl := fun hm => hn (List.mem_cons_of_mem _ hm)
          simpa [this] using h
    | _ => first | (simp [Call.claims] at h; done) | simpa [Call.claims] using h
  | unlock pc =>
    cases pc <;> first | (simp [Call.claims] at h; done) | simpa [Call.claims] using h

theorem Inv_spawn (s : State) (hinv : Inv s) (cn : Call) (unl : List Nat)
    (hmono : ∀ (u : Nat) (cu : Call) (Q : String), s.calls[u]? = some cu →
      cu.claims unl u = some Q → cu.claims s.unlocked u = some Q)
    (hnew : ∀ Q, cn.claims unl s.calls.length = some Q → (s.srv.locks Q).isSome = true ∧
      ∀ (u : Nat) (cu : Call), s.calls[u]? = some cu → cu.claims unl u ≠ some Q)
    (hb : cn.bound = none) (hcl : cn.closing = none) (ha : cn.isPanicked = false)
    (hp : cn.past s.calls.length = []) :
    Inv { s with calls := s.calls ++ [cn], unlocked := unl } := by
  constructor
  · intro u cu hu Q hQ
    rcases getElem?_concat_cases _ _ _ _ hu with ⟨rfl, rfl⟩ | ⟨_, h⟩
    · exact (hnew Q hQ).1
    · exact hinv.held u cu h Q (hmono u cu Q h hQ)
  · intro u cu hu Q li hbu
    rcases getElem?_concat_cases _ _ _ _ hu with ⟨rfl, rfl⟩ | ⟨_, h⟩
    · rw [hb] at hbu
      cases hbu
    · exact hinv.mine u cu h Q li hbu
  · intro t1 t2 c1 c2 Q h1 h2 hp1 hp2
    rcases getElem?_concat_cases _ _ _ _ h1 with ⟨rfl, rfl⟩ | ⟨_, k1⟩
    · rcases getElem?_concat_cases _ _ _ _ h2 with ⟨rfl, rfl⟩ | ⟨_, k2⟩
      · rfl
      · exact absurd hp2 ((hnew Q hp1).2 t2 c2 k2)
    · rcases getElem?_concat_cases _ _ _ _ h2 with ⟨rfl, rfl⟩ | ⟨_, k2⟩
      · exact absurd hp1 ((hnew Q hp2).2 t1 c1 k1)
      · exact hinv.one t1 t2 c1 c2 Q k1 k2 (hmono _ _ _ k1 hp1) (hmono _ _ _ k2 hp2)
  · intro u cu hu li hclu
    rcases getElem?_concat_cases _ _ _ _ hu with ⟨rfl, rfl⟩ | ⟨_, h⟩
    · rw [hcl] at hclu
      cases hclu
    · exact hinv.fresh u cu h li hclu
  · intro t1 t2 c1 c2 li h1 h2 hl1 hl2
    rcases getElem?_concat_cases _ _ _ _ h1 with ⟨rfl, rfl⟩ | ⟨_, k1⟩
    · rw [hcl] at hl1
      cases hl1
    · rcases getElem?_concat_cases _ _ _ _ h2 with ⟨rfl, rfl⟩ | ⟨_, k2⟩
      · rw [hcl] at hl2
        cases hl2
      · exact hinv.closer t1 t2 c1 c2 li k1 k2 hl1 hl2
  · exact hinv.once
  · intro c0 h0
    rcases List.mem_append.mp h0 with h0 | h0
    · exact hinv.alive c0 h0
    · simp only [List.mem_singleton] at h0
      subst h0
      exact ha
  · intro u cu hu e he
    rcases getElem?_concat_cases _ _ _ _ hu with ⟨rfl, rfl⟩ | ⟨_, h⟩
    · rw [hp] at he
      cases he
    · exact hinv.past u cu h e he
  · exact hinv.order
  · intro i inst hi
    rcases hinv.life i inst hi with h | ⟨hd, u, cu, hu, hcu⟩ | h
    · exact Or.inl h
    · exact Or.inr (Or.inl ⟨hd, u, cu, getElem?_append_some _ _ _ _ hu, hcu⟩)
    · exact Or.inr (Or.inr h)

/-- One action keeps the invariant, provided an `Unlock` is not on a descriptor
that was unlocked before. -/
theorem Inv_step (env : Env) (s s1 : State) (a : Action) (hwf : WF s) (hinv : Inv s)
    (hd : ∀ d, a = Action.callUnlock d → d ∉ s.unlocked)
    (h : s.step env a = some s1) : Inv s1 := by
  cases a with
  | callLock dirPath contents =>
    simp only [State.step, Option.some.injEq] at h
    subst h
    exact Inv_spawn s hinv _ s.unlocked (fun _ _ _ _ h => h)
      (fun Q hQ => by simp [Call.claims] at hQ) rfl rfl rfl rfl
  | callUnlock d =>
    have hnd : d ∉ s.unlocked := hd d rfl
    simp only [State.step] at h
    split at h
    · rename_i ld err hcd
      simp only [Option.some.injEq] at h
      subst h
      refine Inv_spawn s hinv _ _ (fun u cu Q _ h => claims_cons cu d s.unlocked u Q h)
        ?_ rfl rfl rfl rfl
      intro Q hQ
      simp only [consulLockDescriptor.Unlock, Call.claims, Option.some.injEq] at hQ
      subst hQ
      have hdc : (Call.Lock (LockPC.ret (some ld) err)).claims s.unlocked d = some ld.lockPath := by
        simp [Call.claims, hnd]
      refine ⟨hinv.held d _ hcd _ hdc, ?_⟩
      intro u cu hu hcu
      have hud : u = d := hinv.one u d cu _ _ hu hcd (claims_cons cu d s.unlocked u _ hcu) hdc
      subst hud
      rw [hcd] at hu
      cases hu
      simp [Call.claims] at hcu
    · cases h
  | run t o =>
    obtain ⟨c, srv1, c1, hc, rfl, he⟩ := step_run env s s1 t o h
    exact Inv_eff s hwf hinv t c c1 srv1 hc he

theorem step_unlocked (env : Env) (s s1 : State) (a : Action) (h : s.step env a = some s1) :
    s1.unlocked = s.unlocked ∨ ∃ d, a = Action.callUnlock d ∧ s1.unlocked = d :: s.unlocked := by
  cases a with
  | callLock dirPath contents =>
    simp only [State.step, Option.some.injEq] at h
    subst h
    exact Or.inl rfl
  | callUnlock d =>
    simp only [State.step] at h
    split at h
    · simp only [Option.some.injEq] at h
      subst h
      exact Or.inr ⟨d, rfl, rfl⟩
    · cases h
  | run t o =>
    obtain ⟨c, srv1, c1, hc, rfl, he⟩ := step_run env s s1 t o h
    exact Or.inl rfl

theorem Inv_exec (env : Env) (tr : List Action) :
    ∀ (s s1 : State), WF s → Inv s → (unlockTargets tr).Nodup →
      (∀ d ∈ unlockTargets tr, d ∉ s.unlocked) → State.exec env tr s = some s1 → Inv s1 := by
  induction tr with
  | nil =>
    intro s s1 _ hinv _ _ h
    simp only [State.exec, Option.some.injEq] at h
    subst h
    exact hinv
  | cons a tr ih =>
    intro s s1 hwf hinv hnd hun h
    simp only [State.exec] at h
    cases hs : s.step env a with
    | none => simp [hs] at h
    | some s2 =>
      simp only [hs, Option.some_bind] at h
      have hwf2 := WF_step env s s2 a hwf hs
      have hinv2 : Inv s2 := by
        refine Inv_step env s s2 a hwf hinv ?_ hs
        intro d hd
        subst hd
        exact hun d (by simp [unlockTargets])
      rcases step_unlocked env s s2 a hs with hu | ⟨d, rfl, hu⟩
      · have hsub : ∀ d ∈ unlockTargets tr, d ∈ unlockTargets (a :: tr) := by
          intro d hd
          cases a <;> simp [unlockTargets, hd]
        have hnd2 : (unlockTargets tr).Nodup := by
          cases a
          · simpa [unlockTargets] using hnd
          · simp only [unlockTargets, List.nodup_cons] at hnd
            exact hnd.2
          · simpa [unlockTargets] using hnd
        refine ih s2 s1 hwf2 hinv2 hnd2 ?_ h
        intro d hd
        rw [hu]
        exact hun d (hsub d hd)
      · simp only [unlockTargets, List.nodup_cons] at hnd
        refine ih s2 s1 hwf2 hinv2 hnd.2 ?_ h
        intro d1 hd1
        rw [hu]
        intro hm
        rcases List.mem_cons.mp hm with hm | hm
        · subst hm
          exact hnd.1 hd1
        · exact hun d1 (by simp [unlockTargets, hd1]) hm

theorem Inv_reach (env : Env) (root : String) (tr : List Action) (s : State)
    (h : State.exec env tr (State.start root) = some s) (hd : UnlockedAtMostOnce tr) : Inv s :=
  Inv_exec env tr (State.start root) s (WF_start root) (Inv_start root) hd
    (by intro d _; simp [State.start]) h

theorem WF_reach (env : Env) (root : String) (tr : List Action) (s : State)
    (h : State.exec env tr (State.start root) = some s) : WF s :=
  WF_exec env tr (State.start root) s (WF_start root) h

/-! ## Runs of one call, start to return -/

theorem unlockRun_open (s : Server) (t : Nat) (P : String) (li : Nat) (l : apiLock)
    (r : Option Err) (hreg : s.locks P = some li) (hinst : s.insts[li]? = some ⟨l, 0⟩) :
    Server.unlockRun t [Outcome.internal, Outcome.ret r, Outcome.internal, Outcome.internal]
        (s, UnlockPC.lookup P)
      = some ({ s with locks := mapDelete s.locks P,
                       insts := s.insts.set li ⟨l, 1⟩,
                       log := Event.close t li :: Event.delete t P (some li) ::
                         Event.release t li :: s.log },
              UnlockPC.ret r) := by
  simp [Server.unlockRun, Server.unlock, Server.emit, Server.close, hreg, hinst]

theorem LockRun_fail_open (env : Env) (s : Server) (t : Nat) (P : String) (li : Nat)
    (l l0 : apiLock) (e : Err) (hreg : s.locks P = some li)
    (hinst : s.insts[li]? = some ⟨l0, 0⟩) :
    Server.LockRun env t [Outcome.ret (some e), Outcome.internal, Outcome.internal]
        (s, LockPC.acquire P l li)
      = some ({ s with locks := mapDelete s.locks P,
                       insts := s.insts.set li ⟨l0, 1⟩,
                       log := Event.close t li :: Event.delete t P (some li) ::
                         Event.acquire t l :: s.log },
              LockPC.ret none (some e)) := by
  simp [Server.LockRun, Server.Lock, Server.emit, Server.close, hreg, hinst]

theorem set_concat_length {α : Type} (xs : List α) (a b : α) :
    (xs ++ [a]).set xs.length b = xs ++ [b] := by
  induction xs with
  | nil => rfl
  | cons x xs ih => simp [List.set, ih]

theorem LockRun_fail_fresh (env : Env) (s : Server) (t : Nat) (P : String) (l : apiLock)
    (e : Err) (hfree : s.locks P = none) :
    Server.LockRun env t
        [Outcome.internal, Outcome.ret (some e), Outcome.internal, Outcome.internal]
        (s, LockPC.claim P l)
      = some ({ s with insts := s.insts ++ [⟨l, 1⟩],
                       log := Event.close t s.insts.length ::
                         Event.delete t P (some s.insts.length) :: Event.acquire t l ::
                         Event.insert t P s.insts.length :: s.log },
              LockPC.ret none (some e)) := by
  simp [Server.LockRun, Server.Lock, Server.emit, Server.close, hfree, mapSet,
    mapDelete_mapSet, set_concat_length]

theorem LockRun_claimed (env : Env) (s : Server) (t : Nat) (dirPath contents : String)
    (hfree : s.locks (env.lockPath s.root dirPath) = none) :
    Server.LockRun env t [Outcome.ret none, Outcome.ret none, Outcome.internal]
        (s, LockPC.listDir dirPath contents)
      = some ({ s with
                  insts := s.insts ++
                    [⟨⟨env.lockPath s.root dirPath, contents⟩, 0⟩],
                  locks := mapSet s.locks (env.lockPath s.root dirPath)
                    s.insts.length,
                  log := Event.insert t (env.lockPath s.root dirPath) s.insts.length ::
                    Event.LockOpts t (env.lockPath s.root dirPath) contents ::
                    Event.ListDir t dirPath :: s.log },
              LockPC.acquire (env.lockPath s.root dirPath)
                ⟨env.lockPath s.root dirPath, contents⟩ s.insts.length) := by
  simp [Server.LockRun, Server.Lock, Server.emit, hfree]

theorem LockRun_ok (env : Env) (s : Server) (t : Nat) (dirPath contents : String)
    (hfree : s.locks (env.lockPath s.root dirPath) = none) :
    Server.LockRun env t
        [Outcome.ret none, Outcome.ret none, Outcome.internal, Outcome.ret none]
        (s, LockPC.listDir dirPath contents)
      = some ({ s with
                  insts := s.insts ++
                    [⟨⟨env.lockPath s.root dirPath, contents⟩, 0⟩],
                  locks := mapSet s.locks (env.lockPath s.root dirPath)
                    s.insts.length,
                  log := Event.acquire t ⟨env.lockPath s.root dirPath, contents⟩ ::
                    Event.insert t (env.lockPath s.root dirPath) s.insts.length ::
                    Event.LockOpts t (env.lockPath s.root dirPath) contents ::
                    Event.ListDir t dirPath :: s.log },
              LockPC.ret (some ⟨env.lockPath s.root dirPath⟩) none) := by
  simp [Server.LockRun, Server.Lock, Server.emit, hfree]

/-! ## The claims about one call -/

theorem demoClaim_reaches : State.exec demoEnv demoClaim (State.start "/r") = some demoClaimed := by
  rfl

theorem demoHold_reaches : State.exec demoEnv demoHold (State.start "/r") = some demoHeld := by
  rfl

theorem demoRound_reaches : State.exec demoEnv demoRound (State.start "/r") = some demoReleased := by
  rfl

theorem demoFailed_reaches : State.exec demoEnv demoFailed (State.start "/r") = some demoWaking := by
  rfl

/-- C3: in every reachable state (any interleaving of any calls) in which
an instance `li` is registered for path `P`, and for every result `r` of the
external release, `unlock(P)` runs to its return: it calls release on `li`,
deletes the entry of `P`, leaves every other entry as it was, closes the
channel of `li` (from open to closed once) and returns exactly `r`. -/
theorem unlock_registered (env : Env) (root : String) (tr : List Action) (st : State)
    (hreach : State.exec env tr (State.start root) = some st) (t : Nat) (P : String) (li : Nat)
    (r : Option Err) (hreg : st.srv.locks P = some li) :
    ∃ l s1, st.srv.insts[li]? = some ⟨l, 0⟩
      ∧ Server.unlockRun t [Outcome.internal, Outcome.ret r, Outcome.internal, Outcome.internal]
          (st.srv, (consulLockDescriptor.mk P).Unlock) = some (s1, UnlockPC.ret r)
      ∧ s1.locks P = none
      ∧ (∀ Q, Q ≠ P → s1.locks Q = st.srv.locks Q)
      ∧ s1.insts = st.srv.insts.set li ⟨l, 1⟩
      ∧ s1.log = Event.close t li :: Event.delete t P (some li) :: Event.release t li ::
          st.srv.log := by
  obtain ⟨l, hl, _⟩ := (WF_reach env root tr st hreach).reg P li hreg
  refine ⟨l, _, hl, unlockRun_open st.srv t P li l r hreg hl, ?_, ?_, rfl, rfl⟩
  · simp [mapDelete]
  · intro Q hQ
    simp [mapDelete, hQ]

theorem unlock_registered_witness :
    State.exec demoEnv demoHold (State.start "/r") = some demoHeld
      ∧ demoHeld.srv.locks "/r/a/locks" = some 0
      ∧ ∃ l s1, demoHeld.srv.insts[0]? = some ⟨l, 0⟩
        ∧ Server.unlockRun 1
            [Outcome.internal, Outcome.ret (some (Err.ext "lost session")), Outcome.internal,
              Outcome.internal]
            (demoHeld.srv, (consulLockDescriptor.mk "/r/a/locks").Unlock)
          = some (s1, UnlockPC.ret (some (Err.ext "lost session")))
        ∧ s1.locks "/r/a/locks" = none
        ∧ (∀ Q, Q ≠ "/r/a/locks" → s1.locks Q = demoHeld.srv.locks Q)
        ∧ s1.insts = demoHeld.srv.insts.set 0 ⟨l, 1⟩
        ∧ s1.log = Event.close 1 0 :: Event.delete 1 "/r/a/locks" (some 0) :: Event.release 1 0 ::
            demoHeld.srv.log :=
  ⟨demoHold_reaches, by decide,
    unlock_registered demoEnv "/r" demoHold demoHeld demoHold_reaches 1 "/r/a/locks" 0
      (some (Err.ext "lost session")) (by decide)⟩

/-- C4, as stated, fails: at the end of `doubleUnlock` call 2 (B) has inserted
its own instance 1 and stands at its acquire, but the second `Unlock` of A has
deleted that entry and closed that channel, and C has inserted instance 2
under the same path.  When the acquire of B now returns an error, B deletes
the entry of C, executes a second close on its own channel and dies in the
panic instead of returning the error. -/
theorem Lock_acquire_failed_after_double_unlock :
    (State.exec demoEnv (doubleUnlock "a" "x" "y" "z" none) (State.start "/r")).map
        (fun s => (s.calls[2]?, s.srv.locks "/r/a/locks", s.srv.insts[1]?,
          decide (Event.insert 2 "/r/a/locks" 1 ∈ s.srv.log)))
      = some (some (Call.Lock (LockPC.acquire "/r/a/locks" ⟨"/r/a/locks", "y"⟩ 1)), some 2,
          some ⟨⟨"/r/a/locks", "y"⟩, 1⟩, true)
    ∧ (State.exec demoEnv
          (doubleUnlock "a" "x" "y" "z" none ++
            [Action.run 2 (Outcome.ret (some (Err.ext "no session"))),
              Action.run 2 Outcome.internal, Action.run 2 Outcome.internal])
          (State.start "/r")).map
        (fun s => (s.calls[2]?, s.srv.locks "/r/a/locks", s.srv.insts[1]?))
      = some (some (Call.Lock LockPC.panicked), none, some ⟨⟨"/r/a/locks", "y"⟩, 2⟩) := by
  constructor <;> decide

/-- C4 amended: take a reachable state and a `Lock` call `t` that stands at its
acquire (line 84) with its own instance `li` inserted for `P`, the entry under
`P` being still that instance, which is so whenever each descriptor was passed
to `Unlock` at most once.  When the acquire returns the error `e`, the call
runs to its return: it deletes the entry of `P`, leaves every other entry as
it was, closes the channel of `li` (from open to closed once), and returns no
descriptor and exactly `e`. -/
theorem Lock_acquire_failed (env : Env) (root : String) (tr : List Action) (st : State)
    (hreach : State.exec env tr (State.start root) = some st) (t : Nat) (P : String)
    (l : apiLock) (li : Nat) (e : Err)
    (hcall : st.calls[t]? = some (Call.Lock (LockPC.acquire P l li)))
    (hown : UnlockedAtMostOnce tr ∨ st.srv.locks P = some li) :
    ∃ l0 s1, st.srv.locks P = some li
      ∧ st.srv.insts[li]? = some ⟨l0, 0⟩
      ∧ Server.LockRun env t [Outcome.ret (some e), Outcome.internal, Outcome.internal]
          (st.srv, LockPC.acquire P l li) = some (s1, LockPC.ret none (some e))
      ∧ s1.locks P = none
      ∧ (∀ Q, Q ≠ P → s1.locks Q = st.srv.locks Q)
      ∧ s1.insts = st.srv.insts.set li ⟨l0, 1⟩
      ∧ s1.log = Event.close t li :: Event.delete t P (some li) :: Event.acquire t l ::
          st.srv.log := by
  have hreg : st.srv.locks P = some li := by
    rcases hown with honce | hreg
    · exact (Inv_reach env root tr st hreach honce).mine t _ hcall P li rfl
    · exact hreg
  obtain ⟨l0, hl0, _⟩ := (WF_reach env root tr st hreach).reg P li hreg
  refine ⟨l0, _, hreg, hl0, LockRun_fail_open env st.srv t P li l l0 e hreg hl0, ?_, ?_, rfl, rfl⟩
  · simp [mapDelete]
  · intro Q hQ
    simp [mapDelete, hQ]

theorem Lock_acquire_failed_witness :
    State.exec demoEnv demoClaim (State.start "/r") = some demoClaimed
      ∧ demoClaimed.calls[0]? = some (Call.Lock (LockPC.acquire "/r/a/locks" ⟨"/r/a/locks", "x"⟩ 0))
      ∧ UnlockedAtMostOnce demoClaim
      ∧ ∃ l0 s1, demoClaimed.srv.locks "/r/a/locks" = some 0
        ∧ demoClaimed.srv.insts[0]? = some ⟨l0, 0⟩
        ∧ Server.LockRun demoEnv 0
            [Outcome.ret (some (Err.ext "context canceled")), Outcome.internal, Outcome.internal]
            (demoClaimed.srv, LockPC.acquire "/r/a/locks" ⟨"/r/a/locks", "x"⟩ 0)
          = some (s1, LockPC.ret none (some (Err.ext "context canceled")))
        ∧ s1.locks "/r/a/locks" = none
        ∧ (∀ Q, Q ≠ "/r/a/locks" → s1.locks Q = demoClaimed.srv.locks Q)
        ∧ s1.insts = demoClaimed.srv.insts.set 0 ⟨l0, 1⟩
        ∧ s1.log = Event.close 0 0 :: Event.delete 0 "/r/a/locks" (some 0) ::
            Event.acquire 0 ⟨"/r/a/locks", "x"⟩ :: demoClaimed.srv.log :=
  ⟨demoClaim_reaches, by decide, by decide,
    Lock_acquire_failed demoEnv "/r" demoClaim demoClaimed demoClaim_reaches 0 "/r/a/locks"
      ⟨"/r/a/locks", "x"⟩ 0 (Err.ext "context canceled") (by decide) (Or.inl (by decide))⟩

/-! ## Every sequential run of `Lock` that returns an error -/

theorem LockRun_ret (env : Env) (t : Nat) (os : List Outcome) (s : Server)
    (ld : Option consulLockDescriptor) (err : Option Err) (r : Server × LockPC)
    (h : Server.LockRun env t os (s, LockPC.ret ld err) = some r) :
    os = [] ∧ r = (s, LockPC.ret ld err) := by
  cases os with
  | nil =>
    simp only [Server.LockRun, Option.some.injEq] at h
    exact ⟨rfl, h.symm⟩
  | cons o os => cases o <;> simp [Server.LockRun, Server.Lock] at h

theorem LockRun_acquire_error (env : Env) (t : Nat) (s2 : Server) (P : String) (l l0 : apiLock)
    (n : Nat) (hinst : s2.insts[n]? = some ⟨l0, 0⟩) (os : List Outcome) (s1 : Server)
    (ld : Option consulLockDescriptor) (err : Err)
    (h : Server.LockRun env t os (s2, LockPC.acquire P l n) = some (s1, LockPC.ret ld (some err))) :
    ld = none ∧ os = [Outcome.ret (some err), Outcome.internal, Outcome.internal] := by
  rcases os with _ | ⟨o1, os⟩
  · simp [Server.LockRun] at h
  rcases o1 with _ | (_ | e) | e
  · simp [Server.LockRun, Server.Lock] at h
  · simp only [Server.LockRun, Server.Lock, Option.some_bind] at h
    have := (LockRun_ret env t os _ _ _ _ h).2
    simp at this
  · simp only [Server.LockRun, Server.Lock, Option.some_bind] at h
    rcases os with _ | ⟨o2, os⟩
    · simp [Server.LockRun] at h
    rcases o2 with _ | e2 | e2
    · simp only [Server.LockRun, Server.Lock, Option.some_bind] at h
      rcases os with _ | ⟨o3, os⟩
      · simp [Server.LockRun] at h
      rcases o3 with _ | e3 | e3
      · simp only [Server.LockRun, Server.Lock, Server.close, Server.emit, hinst,
          Option.some_bind] at h
        simp only [ne_eq, not_true_eq_false, decide_False] at h
        obtain ⟨hos, hr⟩ := LockRun_ret env t os _ _ _ _ h
        simp only [Prod.mk.injEq, LockPC.ret.injEq, Option.some.injEq] at hr
        obtain ⟨_, hld, herr⟩ := hr
        subst hos
        subst herr
        exact ⟨hld, rfl⟩
      · simp [Server.LockRun, Server.Lock] at h
      · simp [Server.LockRun, Server.Lock] at h
    · simp [Server.LockRun, Server.Lock] at h
    · simp [Server.LockRun, Server.Lock] at h
  · simp [Server.LockRun, Server.Lock] at h

theorem LockRun_claim_error (env : Env) (t : Nat) (P : String) (l : apiLock)
    (os : List Outcome) :
    ∀ (s : Server) (pc : LockPC) (s1 : Server) (ld : Option consulLockDescriptor) (err : Err),
      (pc = LockPC.claim P l ∨ ∃ li, pc = LockPC.wait P l li) →
      Server.LockRun env t os (s, pc) = some (s1, LockPC.ret ld (some err)) →
      ld = none ∧
        (s1 = s ∨
          (s.locks P = none ∧
            s1 = { s with insts := s.insts ++ [⟨l, 1⟩],
                          log := Event.close t s.insts.length ::
                            Event.delete t P (some s.insts.length) :: Event.acquire t l ::
                            Event.insert t P s.insts.length :: s.log })) := by
  induction os with
  | nil =>
    intro s pc s1 ld err hpc h
    simp only [Server.LockRun, Option.some.injEq, Prod.mk.injEq] at h
    rcases hpc with rfl | ⟨li, rfl⟩ <;> simp at h
  | cons o os ih =>
    intro s pc s1 ld err hpc h
    rcases hpc with rfl | ⟨li, rfl⟩
    · rcases o with _ | e | e
      · rcases Option.eq_none_or_eq_some (s.locks P) with hl | ⟨li, hl⟩
        · have h0 := h
          simp only [Server.LockRun, Server.Lock, hl, Option.some_bind] at h
          obtain ⟨hld, hos⟩ := LockRun_acquire_error env t _ P l l s.insts.length
            (List.getElem?_concat_length _ _) os s1 ld err h
          subst hos
          rw [LockRun_fail_fresh env s t P l err hl] at h0
          simp only [Option.some.injEq, Prod.mk.injEq] at h0
          exact ⟨hld, Or.inr ⟨hl, h0.1.symm⟩⟩
        · simp only [Server.LockRun, Server.Lock, hl, Option.some_bind] at h
          exact ih s _ s1 ld err (Or.inr ⟨li, rfl⟩) h
      · simp [Server.LockRun, Server.Lock] at h
      · simp [Server.LockRun, Server.Lock] at h
    · rcases o with _ | e | e
      · simp only [Server.LockRun, Server.Lock] at h
        cases hi : s.insts[li]? with
        | none => simp [hi] at h
        | some inst =>
          simp only [hi] at h
          by_cases hd : inst.done = 0
          · simp [hd] at h
          · simp only [ne_eq, hd, not_false_eq_true, if_true, Option.some_bind] at h
            exact ih s _ s1 ld err (Or.inl rfl) h
      · simp [Server.LockRun, Server.Lock] at h
      · simp only [Server.LockRun, Server.Lock, Option.some_bind] at h
        obtain ⟨_, hr⟩ := LockRun_ret env t os _ _ _ _ h
        simp only [Prod.mk.injEq, LockPC.ret.injEq] at hr
        exact ⟨hr.2.1, Or.inl hr.1⟩

/-- C5, as stated, fails: with the lock of `a` held by call 0, call 1 enters
`Lock` for `a`, waits and is cancelled; it returns an error, no cleanup is
made, and the registry still has the entry (instance 0) under the derived
lock path. -/
theorem Lock_error_entry_present :
    (State.exec demoEnv demoCancelled (State.start "/r")).map
        (fun s => (s.calls[1]?, s.srv.locks (demoEnv.lockPath "/r" "a")))
      = some (some (Call.Lock (LockPC.ret none (some (Err.ext "context canceled")))), some 0) := by
  decide

/-- C5 amended: take a `Lock` call run from its start to its return with no
step of another call in between, from any server state.  If it returns an
error it returns no descriptor and the registry is as before the call, and
either it made no insert, no acquire, no delete and no close (instances as
before, the log grown by the `ListDir` and at most the `LockOpts`: failure of
the existence check, of the handle preparation, or cancellation in the wait),
or the path was free, the call inserted its own instance, its acquire failed,
and it then deleted that very entry and closed that channel once.  Each of the
four failures does return: the existence check, the handle preparation, the
cancellation while an entry is registered (the entry stays), and the failed
acquire on a free path (insert, acquire, delete, close, no entry at return). -/
theorem Lock_error_cleanup (env : Env) (s : Server) (t : Nat) (dirPath contents : String) :
    (∀ os s1 ld err,
        Server.LockRun env t os (s, LockPC.listDir dirPath contents)
          = some (s1, LockPC.ret ld (some err)) →
        ld = none ∧ s1.root = s.root ∧ s1.locks = s.locks ∧
          ((s1.insts = s.insts ∧
              (s1.log = Event.ListDir t dirPath :: s.log ∨
                s1.log = Event.LockOpts t (env.lockPath s.root dirPath) contents ::
                  Event.ListDir t dirPath :: s.log))
            ∨ (s.locks (env.lockPath s.root dirPath) = none ∧
                s1.insts = s.insts ++ [⟨⟨env.lockPath s.root dirPath, contents⟩, 1⟩] ∧
                s1.log = Event.close t s.insts.length ::
                  Event.delete t (env.lockPath s.root dirPath) (some s.insts.length) ::
                  Event.acquire t ⟨env.lockPath s.root dirPath, contents⟩ ::
                  Event.insert t (env.lockPath s.root dirPath) s.insts.length ::
                  Event.LockOpts t (env.lockPath s.root dirPath) contents ::
                  Event.ListDir t dirPath :: s.log)))
      ∧ (∀ e, Server.LockRun env t [Outcome.ret (some e)] (s, LockPC.listDir dirPath contents)
          = some ({ s with log := Event.ListDir t dirPath :: s.log },
              LockPC.ret none (some (if e = Err.ErrNoNode then e else listDirError dirPath e))))
      ∧ (∀ e, Server.LockRun env t [Outcome.ret none, Outcome.ret (some e)]
            (s, LockPC.listDir dirPath contents)
          = some ({ s with log := Event.LockOpts t (env.lockPath s.root dirPath) contents ::
                      Event.ListDir t dirPath :: s.log },
              LockPC.ret none (some e)))
      ∧ (∀ li e, s.locks (env.lockPath s.root dirPath) = some li →
          Server.LockRun env t
              [Outcome.ret none, Outcome.ret none, Outcome.internal, Outcome.ctxDone e]
              (s, LockPC.listDir dirPath contents)
            = some ({ s with log := Event.LockOpts t (env.lockPath s.root dirPath) contents ::
                        Event.ListDir t dirPath :: s.log },
                LockPC.ret none (some (env.convertError e))))
      ∧ (∀ e, s.locks (env.lockPath s.root dirPath) = none →
          Server.LockRun env t
              [Outcome.ret none, Outcome.ret none, Outcome.internal, Outcome.ret (some e),
                Outcome.internal, Outcome.internal]
              (s, LockPC.listDir dirPath contents)
            = some ({ s with
                        insts := s.insts ++ [⟨⟨env.lockPath s.root dirPath, contents⟩, 1⟩],
                        log := Event.close t s.insts.length ::
                          Event.delete t (env.lockPath s.root dirPath) (some s.insts.length) ::
                          Event.acquire t ⟨env.lockPath s.root dirPath, contents⟩ ::
                          Event.insert t (env.lockPath s.root dirPath) s.insts.length ::
                          Event.LockOpts t (env.lockPath s.root dirPath) contents ::
                          Event.ListDir t dirPath :: s.log },
                LockPC.ret none (some e))) := by
  refine ⟨?_, ?_, ?_, ?_, ?_⟩
  · intro os s1 ld err h
    rcases os with _ | ⟨o1, os⟩
    · simp [Server.LockRun] at h
    rcases o1 with _ | (_ | e) | e
    · simp [Server.LockRun, Server.Lock] at h
    · simp only [Server.LockRun, Server.Lock, Option.some_bind] at h
      rcases os with _ | ⟨o2, os⟩
      · simp [Server.LockRun] at h
      rcases o2 with _ | (_ | e) | e
      · simp [Server.LockRun, Server.Lock] at h
      · simp only [Server.LockRun, Server.Lock, Option.some_bind] at h
        obtain ⟨hld, hs1⟩ := LockRun_claim_error env t _ _ os _ _ s1 ld err (Or.inl rfl) h
        rcases hs1 with rfl | ⟨hfree, rfl⟩
        · exact ⟨hld, rfl, rfl, Or.inl ⟨rfl, Or.inr rfl⟩⟩
        · exact ⟨hld, rfl, rfl, Or.inr ⟨hfree, rfl, rfl⟩⟩
      · simp only [Server.LockRun, Server.Lock, Option.some_bind] at h
        obtain ⟨_, hr⟩ := LockRun_ret env t os _ _ _ _ h
        simp only [Prod.mk.injEq, LockPC.ret.injEq] at hr
        obtain ⟨rfl, hld, _⟩ := hr
        exact ⟨hld, rfl, rfl, Or.inl ⟨rfl, Or.inr rfl⟩⟩
      · simp [Server.LockRun, Server.Lock] at h
    · simp only [Server.LockRun, Server.Lock] at h
      split at h
      · simp only [Option.some_bind] at h
        obtain ⟨_, hr⟩ := LockRun_ret env t os _ _ _ _ h
        simp only [Prod.mk.injEq, LockPC.ret.injEq] at hr
        obtain ⟨rfl, hld, _⟩ := hr
        exact ⟨hld, rfl, rfl, Or.inl ⟨rfl, Or.inl rfl⟩⟩
      · simp only [Option.some_bind] at h
        obtain ⟨_, hr⟩ := LockRun_ret env t os _ _ _ _ h
        simp only [Prod.mk.injEq, LockPC.ret.injEq] at hr
        obtain ⟨rfl, hld, _⟩ := hr
        exact ⟨hld, rfl, rfl, Or.inl ⟨rfl, Or.inl rfl⟩⟩
    · simp [Server.LockRun, Server.Lock] at h
  · intro e
    by_cases he : e = Err.ErrNoNode <;> simp [Server.LockRun, Server.Lock, Server.emit, he]
  · intro e
    simp [Server.LockRun, Server.Lock, Server.emit]
  · intro li e hreg
    simp [Server.LockRun, Server.Lock, Server.emit, hreg]
  · intro e hfree
    simp [Server.LockRun, Server.Lock, Server.emit, Server.close, hfree, mapSet,
      mapDelete_mapSet, set_concat_length]

theorem Lock_error_cleanup_witness :
    demoServer.locks (demoEnv.lockPath demoServer.root "a") = some 0
      ∧ demoServer.locks (demoEnv.lockPath demoServer.root "b") = none
      ∧ Server.LockRun demoEnv 5
          [Outcome.ret none, Outcome.ret none, Outcome.internal,
            Outcome.ctxDone (Err.ext "context canceled")]
          (demoServer, LockPC.listDir "a" "y")
        = some ({ demoServer with
                    log := Event.LockOpts 5 (demoEnv.lockPath demoServer.root "a") "y" ::
                      Event.ListDir 5 "a" :: demoServer.log },
            LockPC.ret none (some (demoEnv.convertError (Err.ext "context canceled"))))
      ∧ Server.LockRun demoEnv 5
          [Outcome.ret none, Outcome.ret none, Outcome.internal,
            Outcome.ret (some (Err.ext "no session")), Outcome.internal, Outcome.internal]
          (demoServer, LockPC.listDir "b" "y")
        = some ({ demoServer with
                    insts := demoServer.insts ++
                      [⟨⟨demoEnv.lockPath demoServer.root "b", "y"⟩, 1⟩],
                    log := Event.close 5 demoServer.insts.length ::
                      Event.delete 5 (demoEnv.lockPath demoServer.root "b")
                        (some demoServer.insts.length) ::
                      Event.acquire 5 ⟨demoEnv.lockPath demoServer.root "b", "y"⟩ ::
                      Event.insert 5 (demoEnv.lockPath demoServer.root "b")
                        demoServer.insts.length ::
                      Event.LockOpts 5 (demoEnv.lockPath demoServer.root "b") "y" ::
                      Event.ListDir 5 "b" :: demoServer.log },
            LockPC.ret none (some (Err.ext "no session"))) :=
  ⟨by decide, by decide,
    (Lock_error_cleanup demoEnv demoServer 5 "a" "y").2.2.2.1 0 (Err.ext "context canceled")
      (by decide),
    (Lock_error_cleanup demoEnv demoServer 5 "b" "y").2.2.2.2 (Err.ext "no session")
      (by decide)⟩

/-- C8: from a server with no entry for the lock path of directory `dirPath`,
with every external call succeeding: `Lock` returns a descriptor whose
`lockPath` is `path.Join(root, dirPath, locksFilename)` and leaves a new
open-channel entry registered under it; `Unlock` on that descriptor returns nil and the
registry is again what it was before the `Lock`; a second `Lock` goes from its
lookup straight to its acquire (no wait) and returns a descriptor again. -/
theorem Lock_Unlock_Lock (env : Env) (s : Server) (t u v : Nat) (dirPath contents : String)
    (hfree : s.locks (env.lockPath s.root dirPath) = none) :
    ∃ s1 s2 s3 s4,
      Server.LockRun env t
          [Outcome.ret none, Outcome.ret none, Outcome.internal, Outcome.ret none]
          (s, LockPC.listDir dirPath contents)
        = some (s1, LockPC.ret (some ⟨env.pathJoin [s.root, dirPath, env.locksFilename]⟩) none)
      ∧ s1.locks (env.lockPath s.root dirPath) = some s.insts.length
      ∧ s1.insts[s.insts.length]?
          = some ⟨⟨env.lockPath s.root dirPath, contents⟩, 0⟩
      ∧ Server.unlockRun u
          [Outcome.internal, Outcome.ret none, Outcome.internal, Outcome.internal]
          (s1, (consulLockDescriptor.mk (env.lockPath s.root dirPath)).Unlock)
        = some (s2, UnlockPC.ret none)
      ∧ s2.locks = s.locks
      ∧ Server.LockRun env v [Outcome.ret none, Outcome.ret none, Outcome.internal]
          (s2, LockPC.listDir dirPath contents)
        = some (s3, LockPC.acquire (env.lockPath s.root dirPath)
            ⟨env.lockPath s.root dirPath, contents⟩ s2.insts.length)
      ∧ Server.LockRun env v
          [Outcome.ret none, Outcome.ret none, Outcome.internal, Outcome.ret none]
          (s2, LockPC.listDir dirPath contents)
        = some (s4, LockPC.ret (some ⟨env.lockPath s.root dirPath⟩) none)
      ∧ s4.locks (env.lockPath s.root dirPath) = some s2.insts.length := by
  obtain ⟨s1, h1, hl1, hi1, hr1⟩ : ∃ s1 : Server,
      Server.LockRun env t
          [Outcome.ret none, Outcome.ret none, Outcome.internal, Outcome.ret none]
          (s, LockPC.listDir dirPath contents)
        = some (s1, LockPC.ret (some ⟨env.lockPath s.root dirPath⟩) none)
      ∧ s1.locks = mapSet s.locks (env.lockPath s.root dirPath) s.insts.length
      ∧ s1.insts = s.insts ++
          [⟨⟨env.lockPath s.root dirPath, contents⟩, 0⟩]
      ∧ s1.root = s.root :=
    ⟨_, LockRun_ok env s t dirPath contents hfree, rfl, rfl, rfl⟩
  have hreg1 : s1.locks (env.lockPath s.root dirPath)
      = some s.insts.length := by
    rw [hl1]
    simp [mapSet]
  have hinst1 : s1.insts[s.insts.length]?
      = some ⟨⟨env.lockPath s.root dirPath, contents⟩, 0⟩ := by
    rw [hi1]
    exact List.getElem?_concat_length _ _
  obtain ⟨s2, h2, hl2, hr2⟩ : ∃ s2 : Server,
      Server.unlockRun u
          [Outcome.internal, Outcome.ret none, Outcome.internal, Outcome.internal]
          (s1, UnlockPC.lookup (env.lockPath s.root dirPath))
        = some (s2, UnlockPC.ret none)
      ∧ s2.locks = mapDelete s1.locks (env.lockPath s.root dirPath)
      ∧ s2.root = s1.root :=
    ⟨_, unlockRun_open s1 u _ s.insts.length _ none hreg1 hinst1, rfl, rfl⟩
  have hback : s2.locks = s.locks := by
    rw [hl2, hl1]
    exact mapDelete_mapSet _ _ _ hfree
  have hroot : s2.root = s.root := hr2.trans hr1
  have hfree2 : s2.locks (env.lockPath s2.root dirPath) = none := by
    rw [hback, hroot]
    exact hfree
  have h3 := LockRun_claimed env s2 v dirPath contents hfree2
  have h4 := LockRun_ok env s2 v dirPath contents hfree2
  rw [hroot] at h3 h4
  exact ⟨s1, s2, _, _, h1, hreg1, hinst1, h2, hback, h3, h4, by simp [mapSet]⟩

theorem Lock_Unlock_Lock_witness :
    demoServer.locks (demoEnv.lockPath demoServer.root "b") = none
      ∧ ∃ s1 s2 s3 s4,
        Server.LockRun demoEnv 1
            [Outcome.ret none, Outcome.ret none, Outcome.internal, Outcome.ret none]
            (demoServer, LockPC.listDir "b" "y")
          = some (s1, LockPC.ret
              (some ⟨demoEnv.pathJoin [demoServer.root, "b", demoEnv.locksFilename]⟩) none)
        ∧ s1.locks (demoEnv.lockPath demoServer.root "b")
            = some demoServer.insts.length
        ∧ s1.insts[demoServer.insts.length]?
            = some ⟨⟨demoEnv.lockPath demoServer.root "b", "y"⟩, 0⟩
        ∧ Server.unlockRun 2
            [Outcome.internal, Outcome.ret none, Outcome.internal, Outcome.internal]
            (s1, (consulLockDescriptor.mk
              (demoEnv.lockPath demoServer.root "b")).Unlock)
          = some (s2, UnlockPC.ret none)
        ∧ s2.locks = demoServer.locks
        ∧ Server.LockRun demoEnv 3 [Outcome.ret none, Outcome.ret none, Outcome.internal]
            (s2, LockPC.listDir "b" "y")
          = some (s3, LockPC.acquire
              (demoEnv.lockPath demoServer.root "b")
              ⟨demoEnv.lockPath demoServer.root "b", "y"⟩
              s2.insts.length)
        ∧ Server.LockRun demoEnv 3
            [Outcome.ret none, Outcome.ret none, Outcome.internal, Outcome.ret none]
            (s2, LockPC.listDir "b" "y")
          = some (s4, LockPC.ret
              (some ⟨demoEnv.lockPath demoServer.root "b"⟩) none)
        ∧ s4.locks (demoEnv.lockPath demoServer.root "b")
            = some s2.insts.length :=
  ⟨by decide, Lock_Unlock_Lock demoEnv demoServer 1 2 3 "b" "y" (by decide)⟩

/-! ## Unlock by path only -/

theorem exec_append (env : Env) (a b : List Action) :
    ∀ s : State, State.exec env (a ++ b) s = (State.exec env a s).bind (State.exec env b) := by
  induction a with
  | nil => intro s; simp [State.exec]
  | cons x a ih =>
    intro s
    simp only [List.cons_append, State.exec]
    cases hs : s.step env x with
    | none => simp
    | some s1 => simp [ih]

theorem doubleUnlock_reaches (env : Env) (root dirPath cA cB cC : String) (r : Option Err) :
    State.exec env (doubleUnlock dirPath cA cB cC r) (State.start root)
      = some
        { srv :=
            { root := root
              locks := mapSet (fun _ => none) (env.lockPath root dirPath) 2
              insts := [⟨⟨env.lockPath root dirPath, cA⟩, 1⟩,
                        ⟨⟨env.lockPath root dirPath, cB⟩, 1⟩,
                        ⟨⟨env.lockPath root dirPath, cC⟩, 0⟩]
              log := [Event.insert 4 (env.lockPath root dirPath) 2,
                      Event.LockOpts 4 (env.lockPath root dirPath) cC,
                      Event.ListDir 4 dirPath,
                      Event.close 3 1,
                      Event.delete 3 (env.lockPath root dirPath) (some 1),
                      Event.release 3 1,
                      Event.insert 2 (env.lockPath root dirPath) 1,
                      Event.LockOpts 2 (env.lockPath root dirPath) cB,
                      Event.ListDir 2 dirPath,
                      Event.close 1 0,
                      Event.delete 1 (env.lockPath root dirPath) (some 0),
                      Event.release 1 0,
                      Event.acquire 0 ⟨env.lockPath root dirPath, cA⟩,
                      Event.insert 0 (env.lockPath root dirPath) 0,
                      Event.LockOpts 0 (env.lockPath root dirPath) cA,
                      Event.ListDir 0 dirPath] }
          calls := [Call.Lock (LockPC.ret (some ⟨env.lockPath root dirPath⟩) none),
                    Call.unlock (UnlockPC.ret none),
                    Call.Lock (LockPC.acquire (env.lockPath root dirPath)
                      ⟨env.lockPath root dirPath, cB⟩ 1),
                    Call.unlock (UnlockPC.ret r),
                    Call.Lock (LockPC.acquire (env.lockPath root dirPath)
                      ⟨env.lockPath root dirPath, cC⟩ 2)]
          unlocked := [0, 0] } := by
  generalize hlp : env.lockPath root dirPath = lp
  have hA : State.exec env
      [Action.callLock dirPath cA, Action.run 0 (Outcome.ret none), Action.run 0 (Outcome.ret none),
        Action.run 0 Outcome.internal, Action.run 0 (Outcome.ret none)] (State.start root)
      = some
        { srv := { root := root, locks := mapSet (fun _ => none) lp 0,
                   insts := [⟨⟨lp, cA⟩, 0⟩],
                   log := [Event.acquire 0 ⟨lp, cA⟩, Event.insert 0 lp 0, Event.LockOpts 0 lp cA,
                           Event.ListDir 0 dirPath] }
          calls := [Call.Lock (LockPC.ret (some ⟨lp⟩) none)]
          unlocked := [] } := by
    simp [State.exec, State.step, State.start, Server.Lock, Server.emit, hlp]
  have hB : State.exec env
      [Action.callUnlock 0, Action.run 1 Outcome.internal, Action.run 1 (Outcome.ret none),
        Action.run 1 Outcome.internal, Action.run 1 Outcome.internal]
        { srv := { root := root, locks := mapSet (fun _ => none) lp 0,
                   insts := [⟨⟨lp, cA⟩, 0⟩],
                   log := [Event.acquire 0 ⟨lp, cA⟩, Event.insert 0 lp 0, Event.LockOpts 0 lp cA,
                           Event.ListDir 0 dirPath] }
          calls := [Call.Lock (LockPC.ret (some ⟨lp⟩) none)]
          unlocked := [] }
      = some
        { srv := { root := root, locks := fun _ => none,
                   insts := [⟨⟨lp, cA⟩, 1⟩],
                   log := [Event.close 1 0, Event.delete 1 lp (some 0), Event.release 1 0,
                           Event.acquire 0 ⟨lp, cA⟩, Event.insert 0 lp 0, Event.LockOpts 0 lp cA,
                           Event.ListDir 0 dirPath] }
          calls := [Call.Lock (LockPC.ret (some ⟨lp⟩) none), Call.unlock (UnlockPC.ret none)]
          unlocked := [0] } := by
    simp [State.exec, State.step, Server.unlock, Server.emit, Server.close,
      consulLockDescriptor.Unlock, mapSet, mapDelete_mapSet]
  have hC : State.exec env
      [Action.callLock dirPath cB, Action.run 2 (Outcome.ret none), Action.run 2 (Outcome.ret none),
        Action.run 2 Outcome.internal]
        { srv := { root := root, locks := fun _ => none,
                   insts := [⟨⟨lp, cA⟩, 1⟩],
                   log := [Event.close 1 0, Event.delete 1 lp (some 0), Event.release 1 0,
                           Event.acquire 0 ⟨lp, cA⟩, Event.insert 0 lp 0, Event.LockOpts 0 lp cA,
                           Event.ListDir 0 dirPath] }
          calls := [Call.Lock (LockPC.ret (some ⟨lp⟩) none), Call.unlock (UnlockPC.ret none)]
          unlocked := [0] }
      = some
        { srv := { root := root, locks := mapSet (fun _ => none) lp 1,
                   insts := [⟨⟨lp, cA⟩, 1⟩, ⟨⟨lp, cB⟩, 0⟩],
                   log := [Event.insert 2 lp 1, Event.LockOpts 2 lp cB, Event.ListDir 2 dirPath,
                           Event.close 1 0, Event.delete 1 lp (some 0), Event.release 1 0,
                           Event.acquire 0 ⟨lp, cA⟩, Event.insert 0 lp 0, Event.LockOpts 0 lp cA,
                           Event.ListDir 0 dirPath] }
          calls := [Call.Lock (LockPC.ret (some ⟨lp⟩) none), Call.unlock (UnlockPC.ret none),
                    Call.Lock (LockPC.acquire lp ⟨lp, cB⟩ 1)]
          unlocked := [0] } := by
    simp [State.exec, State.step, Server.Lock, Server.emit, hlp]
  have hD : State.exec env
      [Action.callUnlock 0, Action.run 3 Outcome.internal, Action.run 3 (Outcome.ret r),
        Action.run 3 Outcome.internal, Action.run 3 Outcome.internal]
        { srv := { root := root, locks := mapSet (fun _ => none) lp 1,
                   insts := [⟨⟨lp, cA⟩, 1⟩, ⟨⟨lp, cB⟩, 0⟩],
                   log := [Event.insert 2 lp 1, Event.LockOpts 2 lp cB, Event.ListDir 2 dirPath,
                           Event.close 1 0, Event.delete 1 lp (some 0), Event.release 1 0,
                           Event.acquire 0 ⟨lp, cA⟩, Event.insert 0 lp 0, Event.LockOpts 0 lp cA,
                           Event.ListDir 0 dirPath] }
          calls := [Call.Lock (LockPC.ret (some ⟨lp⟩) none), Call.unlock (UnlockPC.ret none),
                    Call.Lock (LockPC.acquire lp ⟨lp, cB⟩ 1)]
          unlocked := [0] }
      = some
        { srv := { root := root, locks := fun _ => none,
                   insts := [⟨⟨lp, cA⟩, 1⟩, ⟨⟨lp, cB⟩, 1⟩],
                   log := [Event.close 3 1, Event.delete 3 lp (some 1), Event.release 3 1,
                           Event.insert 2 lp 1, Event.LockOpts 2 lp cB, Event.ListDir 2 dirPath,
                           Event.close 1 0, Event.delete 1 lp (some 0), Event.release 1 0,
                           Event.acquire 0 ⟨lp, cA⟩, Event.insert 0 lp 0, Event.LockOpts 0 lp cA,
                           Event.ListDir 0 dirPath] }
          calls := [Call.Lock (LockPC.ret (some ⟨lp⟩) none), Call.unlock (UnlockPC.ret none),
                    Call.Lock (LockPC.acquire lp ⟨lp, cB⟩ 1), Call.unlock (UnlockPC.ret r)]
          unlocked := [0, 0] } := by
    simp [State.exec, State.step, Server.unlock, Server.emit, Server.close,
      consulLockDescriptor.Unlock, mapSet, mapDelete_mapSet]
  have hE : State.exec env
      [Action.callLock dirPath cC, Action.run 4 (Outcome.ret none), Action.run 4 (Outcome.ret none),
        Action.run 4 Outcome.internal]
        { srv := { root := root, locks := fun _ => none,
                   insts := [⟨⟨lp, cA⟩, 1⟩, ⟨⟨lp, cB⟩, 1⟩],
                   log := [Event.close 3 1, Event.delete 3 lp (some 1), Event.release 3 1,
                           Event.insert 2 lp 1, Event.LockOpts 2 lp cB, Event.ListDir 2 dirPath,
                           Event.close 1 0, Event.delete 1 lp (some 0), Event.release 1 0,
                           Event.acquire 0 ⟨lp, cA⟩, Event.insert 0 lp 0, Event.LockOpts 0 lp cA,
                           Event.ListDir 0 dirPath] }
          calls := [Call.Lock (LockPC.ret (some ⟨lp⟩) none), Call.unlock (UnlockPC.ret none),
                    Call.Lock (LockPC.acquire lp ⟨lp, cB⟩ 1), Call.unlock (UnlockPC.ret r)]
          unlocked := [0, 0] }
      = some
        { srv := { root := root, locks := mapSet (fun _ => none) lp 2,
                   insts := [⟨⟨lp, cA⟩, 1⟩, ⟨⟨lp, cB⟩, 1⟩, ⟨⟨lp, cC⟩, 0⟩],
                   log := [Event.insert 4 lp 2, Event.LockOpts 4 lp cC, Event.ListDir 4 dirPath,
                           Event.close 3 1, Event.delete 3 lp (some 1), Event.release 3 1,
                           Event.insert 2 lp 1, Event.LockOpts 2 lp cB, Event.ListDir 2 dirPath,
                           Event.close 1 0, Event.delete 1 lp (some 0), Event.release 1 0,
                           Event.acquire 0 ⟨lp, cA⟩, Event.insert 0 lp 0, Event.LockOpts 0 lp cA,
                           Event.ListDir 0 dirPath] }
          calls := [Call.Lock (LockPC.ret (some ⟨lp⟩) none), Call.unlock (UnlockPC.ret none),
                    Call.Lock (LockPC.acquire lp ⟨lp, cB⟩ 1), Call.unlock (UnlockPC.ret r),
                    Call.Lock (LockPC.acquire lp ⟨lp, cC⟩ 2)]
          unlocked := [0, 0] } := by
    simp [State.exec, State.step, Server.Lock, Server.emit, hlp]
  simp only [doubleUnlock, exec_append, hA, hB, hC, hD, hE, Option.some_bind]

theorem set_of_getElem? {α : Type} (l : List α) (t : Nat) (a : α) (h : l[t]? = some a) :
    l.set t a = l := by
  induction l generalizing t with
  | nil => rfl
  | cons x xs ih =>
    cases t with
    | zero =>
      simp only [List.getElem?_cons_zero, Option.some.injEq] at h
      subst h
      rfl
    | succ t =>
      simp only [List.getElem?_cons_succ] at h
      simp [List.set, ih t h]

theorem exec_unlockRun (env : Env) (t : Nat) (os : List Outcome) :
    ∀ (s : State) (pc : UnlockPC) (r : Server × UnlockPC),
      s.calls[t]? = some (Call.unlock pc) → Server.unlockRun t os (s.srv, pc) = some r →
      State.exec env (os.map (Action.run t)) s
        = some { s with srv := r.1, calls := s.calls.set t (Call.unlock r.2) } := by
  induction os with
  | nil =>
    intro s pc r hc hr
    simp only [Server.unlockRun, Option.some.injEq] at hr
    subst hr
    simp [State.exec, set_of_getElem? _ _ _ hc]
  | cons o os ih =>
    intro s pc r hc hr
    simp only [Server.unlockRun] at hr
    cases h1 : Server.unlock s.srv t pc o with
    | none => simp [h1] at hr
    | some r1 =>
      simp only [h1, Option.some_bind] at hr
      have hlt : t < s.calls.length := getElem?_lt _ _ _ hc
      have hstep : s.step env (Action.run t o)
          = some { s with srv := r1.1, calls := s.calls.set t (Call.unlock r1.2) } := by
        simp [State.step, hc, h1]
      have hc1 : (s.calls.set t (Call.unlock r1.2))[t]? = some (Call.unlock r1.2) :=
        List.getElem?_set_self hlt
      have := ih { s with srv := r1.1, calls := s.calls.set t (Call.unlock r1.2) } r1.2 r hc1 hr
      simp only [List.map_cons, State.exec, hstep, Option.some_bind, this, List.set_set]

/-- C10: `unlock` goes by the lock path alone.  In every reachable state, for
every descriptor `ld` that some `Lock` call returned (used before or not) and
whatever instance `li` is registered under its path (inserted by whatever
call), `Unlock` on `ld` runs to its return: it calls release on `li`, deletes
the entry and closes the channel of `li`, and returns the result of the
release.  In the scenario `doubleUnlock` the second `Unlock` of A (call 3)
returns the release result `r`, not "lock not held", after releasing and
deleting the instance 1 that B (call 2) inserted, and C (call 4) then
inserts instance 2 for the same path while B still stands at its acquire:
calls 2 and 4 both claim the path. -/
theorem unlock_by_path_only (env : Env) :
    (∀ (root : String) (tr : List Action) (st : State),
        State.exec env tr (State.start root) = some st →
        ∀ (d : Nat) (ld : consulLockDescriptor) (err : Option Err) (li : Nat) (r : Option Err),
          st.calls[d]? = some (Call.Lock (LockPC.ret (some ld) err)) →
          st.srv.locks ld.lockPath = some li →
          ∃ st1 l,
            State.exec env (Action.callUnlock d ::
                [Outcome.internal, Outcome.ret r, Outcome.internal, Outcome.internal].map
                  (Action.run st.calls.length)) st = some st1
            ∧ st1.calls[st.calls.length]? = some (Call.unlock (UnlockPC.ret r))
            ∧ st1.srv.locks ld.lockPath = none
            ∧ st1.srv.log = Event.close st.calls.length li ::
                Event.delete st.calls.length ld.lockPath (some li) ::
                Event.release st.calls.length li :: st.srv.log
            ∧ st.srv.insts[li]? = some ⟨l, 0⟩
            ∧ st1.srv.insts[li]? = some ⟨l, 1⟩)
      ∧ (∀ (root dirPath cA cB cC : String) (r : Option Err),
          ∃ st, State.exec env (doubleUnlock dirPath cA cB cC r) (State.start root) = some st
            ∧ st.calls[3]? = some (Call.unlock (UnlockPC.ret r))
            ∧ Event.insert 2 (env.lockPath root dirPath) 1 ∈ st.srv.log
            ∧ Event.release 3 1 ∈ st.srv.log
            ∧ Event.delete 3 (env.lockPath root dirPath) (some 1) ∈ st.srv.log
            ∧ st.srv.insts[1]? = some ⟨⟨env.lockPath root dirPath, cB⟩, 1⟩
            ∧ st.calls[2]? = some (Call.Lock (LockPC.acquire (env.lockPath root dirPath)
                ⟨env.lockPath root dirPath, cB⟩ 1))
            ∧ st.calls[4]? = some (Call.Lock (LockPC.acquire (env.lockPath root dirPath)
                ⟨env.lockPath root dirPath, cC⟩ 2))
            ∧ st.srv.locks (env.lockPath root dirPath) = some 2
            ∧ st.claimant 2 = some (env.lockPath root dirPath)
            ∧ st.claimant 4 = some (env.lockPath root dirPath)) := by
  constructor
  · intro root tr st hreach d ld err li r hd hreg
    obtain ⟨l, hl, _⟩ := (WF_reach env root tr st hreach).reg ld.lockPath li hreg
    have hrun := unlockRun_open st.srv st.calls.length ld.lockPath li l r hreg hl
    have hstep : st.step env (Action.callUnlock d)
        = some { st with calls := st.calls ++ [Call.unlock ld.Unlock],
                         unlocked := d :: st.unlocked } := by
      simp [State.step, hd]
    have hnew : (st.calls ++ [Call.unlock ld.Unlock])[st.calls.length]?
        = some (Call.unlock (UnlockPC.lookup ld.lockPath)) :=
      List.getElem?_concat_length _ _
    have hexec := exec_unlockRun env st.calls.length _
      { st with calls := st.calls ++ [Call.unlock ld.Unlock], unlocked := d :: st.unlocked }
      (UnlockPC.lookup ld.lockPath) _ hnew hrun
    have hfull := (congrArg (fun o : Option State => o.bind (State.exec env
      ([Outcome.internal, Outcome.ret r, Outcome.internal, Outcome.internal].map
        (Action.run st.calls.length)))) hstep).trans hexec
    exact ⟨_, l, hfull, List.getElem?_set_self (by simp), by simp [mapDelete], rfl, hl,
      List.getElem?_set_self (getElem?_lt _ _ _ hl)⟩
  · intro root dirPath cA cB cC r
    refine ⟨_, doubleUnlock_reaches env root dirPath cA cB cC r, ?_⟩
    simp [State.claimant, Call.claims, mapSet]

theorem unlock_by_path_only_witness :
    State.exec demoEnv demoHold (State.start "/r") = some demoHeld
      ∧ demoHeld.calls[0]? = some (Call.Lock (LockPC.ret (some ⟨"/r/a/locks"⟩) none))
      ∧ demoHeld.srv.locks "/r/a/locks" = some 0
      ∧ ∃ st1 l,
          State.exec demoEnv (Action.callUnlock 0 ::
              [Outcome.internal, Outcome.ret none, Outcome.internal, Outcome.internal].map
                (Action.run demoHeld.calls.length)) demoHeld = some st1
          ∧ st1.calls[demoHeld.calls.length]? = some (Call.unlock (UnlockPC.ret none))
          ∧ st1.srv.locks "/r/a/locks" = none
          ∧ st1.srv.log = Event.close demoHeld.calls.length 0 ::
              Event.delete demoHeld.calls.length "/r/a/locks" (some 0) ::
              Event.release demoHeld.calls.length 0 :: demoHeld.srv.log
          ∧ demoHeld.srv.insts[0]? = some ⟨l, 0⟩
          ∧ st1.srv.insts[0]? = some ⟨l, 1⟩ :=
  ⟨demoHold_reaches, by decide, by decide,
    (unlock_by_path_only demoEnv).1 "/r" demoHold demoHeld demoHold_reaches 0 ⟨"/r/a/locks"⟩ none 0
      none (by decide) (by decide)⟩

/-! ## The claims about all interleavings -/

theorem insert_only_when_free (env : Env) (s s1 : State) (a : Action)
    (h : s.step env a = some s1) (P : String) (li : Nat) (hreg : s1.srv.locks P = some li) :
    s.srv.locks P = some li ∨
      (s.srv.locks P = none ∧ ∃ t l, s.calls[t]? = some (Call.Lock (LockPC.claim P l)) ∧
        s1.calls[t]? = some (Call.Lock (LockPC.acquire P l li)) ∧
        s1.srv.log = Event.insert t P li :: s.srv.log) := by
  cases a with
  | callLock dirPath contents =>
    simp only [State.step, Option.some.injEq] at h
    subst h
    exact Or.inl hreg
  | callUnlock d =>
    simp only [State.step] at h
    split at h
    · simp only [Option.some.injEq] at h
      subst h
      exact Or.inl hreg
    · cases h
  | run t o =>
    obtain ⟨c, srv1, c1, hc, rfl, he⟩ := step_run env s s1 t o h
    cases he with
    | quiet _ _ q =>
      left
      simpa [q.locks] using hreg
    | insert Q l hcl hfree =>
      subst hcl
      simp only [mapSet] at hreg
      by_cases hq : P = Q
      · subst hq
        simp only [if_true, Option.some.injEq] at hreg
        subst hreg
        exact Or.inr ⟨hfree, t, l, hc, List.getElem?_set_self (getElem?_lt _ _ _ hc), rfl⟩
      · simp only [hq, if_false] at hreg
        exact Or.inl hreg
    | delete Q lj _ hb hclosing hclaims hbound hhandle halive hpast =>
      simp only [mapDelete] at hreg
      by_cases hq : P = Q
      · simp [hq] at hreg
      · simp only [hq, if_false] at hreg
        exact Or.inl hreg
    | close lj inst _ hcl hinst hclaims hbound hhandle hclosing hpast hpanic hbehind =>
      exact Or.inl hreg

theorem length_le_one_of_all_eq (l : List Nat) (hnd : l.Nodup)
    (h : ∀ a ∈ l, ∀ b ∈ l, a = b) : l.length ≤ 1 := by
  cases l with
  | nil => simp
  | cons a l =>
    cases l with
    | nil => simp
    | cons b l =>
      have hab : a = b := h a (by simp) b (by simp)
      subst hab
      simp at hnd

/-- C1: in every state reached from the empty registry by any interleaving of
`Lock` and `Unlock` calls in which each descriptor is passed to `Unlock` at
most once, at most one call claims a path `P` (is past the insert at
`s.locks[P]` and not past the delete: acquire outstanding, lock held, or
unlock under way), that is, two calls that claim `P` are the same call; a
claimed path has its entry in the registry; and every step that puts an entry
under `P` is the lookup-and-insert section of a `Lock` call that found no
entry under `P`. -/
theorem local_mutual_exclusion (env : Env) (root : String) (tr : List Action) (s : State)
    (hreach : State.exec env tr (State.start root) = some s) (honce : UnlockedAtMostOnce tr) :
    (∀ P, (s.claimants P).length ≤ 1)
      ∧ (∀ P t1 t2, s.claimant t1 = some P → s.claimant t2 = some P → t1 = t2)
      ∧ (∀ P t, s.claimant t = some P → (s.srv.locks P).isSome = true)
      ∧ (∀ a s1, s.step env a = some s1 → ∀ P li, s1.srv.locks P = some li →
          s.srv.locks P = some li ∨
            (s.srv.locks P = none ∧ ∃ t l, s.calls[t]? = some (Call.Lock (LockPC.claim P l)) ∧
              s1.calls[t]? = some (Call.Lock (LockPC.acquire P l li)) ∧
              s1.srv.log = Event.insert t P li :: s.srv.log)) := by
  have hinv := Inv_reach env root tr s hreach honce
  have hone : ∀ P t1 t2, s.claimant t1 = some P → s.claimant t2 = some P → t1 = t2 := by
    intro P t1 t2 h1 h2
    simp only [State.claimant, Option.bind_eq_some] at h1 h2
    obtain ⟨c1, hc1, hp1⟩ := h1
    obtain ⟨c2, hc2, hp2⟩ := h2
    exact hinv.one t1 t2 c1 c2 P hc1 hc2 hp1 hp2
  refine ⟨?_, hone, ?_, ?_⟩
  · intro P
    refine length_le_one_of_all_eq _ ((List.nodup_range _).filter _) ?_
    intro a ha b hb
    simp only [State.claimants, List.mem_filter, decide_eq_true_eq] at ha hb
    exact hone P a b ha.2 hb.2
  · intro P t h
    simp only [State.claimant, Option.bind_eq_some] at h
    obtain ⟨c, hc, hp⟩ := h
    exact hinv.held t c hc P hp
  · intro a s1 h P li hreg
    exact insert_only_when_free env s s1 a h P li hreg

theorem local_mutual_exclusion_witness :
    State.exec demoEnv demoHold (State.start "/r") = some demoHeld
      ∧ UnlockedAtMostOnce demoHold
      ∧ demoHeld.claimants "/r/a/locks" = [0]
      ∧ (∀ P, (demoHeld.claimants P).length ≤ 1)
      ∧ (∀ P t1 t2, demoHeld.claimant t1 = some P → demoHeld.claimant t2 = some P → t1 = t2) :=
  ⟨demoHold_reaches, by decide, by decide,
    (local_mutual_exclusion demoEnv "/r" demoHold demoHeld demoHold_reaches (by decide)).1,
    (local_mutual_exclusion demoEnv "/r" demoHold demoHeld demoHold_reaches (by decide)).2.1⟩

theorem closing_past (t : Nat) (c : Call) (li : Nat) (h : c.closing = some li) :
    ∃ P, Event.delete t P (some li) ∈ c.past t := by
  cases c with
  | Lock pc =>
    cases pc <;> simp [Call.closing] at h
    rename_i P lj err
    subst h
    exact ⟨P, by simp [Call.past]⟩
  | unlock pc =>
    cases pc <;> simp [Call.closing] at h
    rename_i P lj err
    subst h
    exact ⟨P, by simp [Call.past]⟩

/-- C9: in every state reached from the empty registry by any interleaving of
`Lock` and `Unlock` calls in which each descriptor is passed to `Unlock` at
most once: every `done` channel has had at most one `close` executed on it and
no call has panicked on a closed channel; a registered instance has its
channel open; every `close` in the log is by a call that earlier deleted that
very instance from the registry, a call that is the `Lock` that inserted it or
an `unlock` that released its handle; every instance ever made is registered
and open, or deleted by a call that stands right before its
`close(li.done)`, or closed exactly once; the delete of a failing `Lock` and of
an `unlock` remove the own instance of the call and lead to the close; and
that close is enabled, closes that channel (from open to closed) and lets the
call return its error or its release result. -/
theorem done_closed_once_at_removal (env : Env) (root : String) (tr : List Action) (s : State)
    (hreach : State.exec env tr (State.start root) = some s) (honce : UnlockedAtMostOnce tr) :
    (∀ (i : Nat) (inst : lockInstance), s.srv.insts[i]? = some inst → inst.done ≤ 1)
      ∧ (∀ c ∈ s.calls, c.isPanicked = false)
      ∧ (∀ P i, s.srv.locks P = some i → ∃ l, s.srv.insts[i]? = some ⟨l, 0⟩)
      ∧ (∀ post pre t li, s.srv.log = post ++ Event.close t li :: pre →
          ∃ P, Event.delete t P (some li) ∈ pre ∧
            (Event.insert t P li ∈ pre ∨ Event.release t li ∈ pre))
      ∧ (∀ (i : Nat) (inst : lockInstance), s.srv.insts[i]? = some inst →
          (inst.done = 0 ∧ ∃ P, s.srv.locks P = some i)
            ∨ (inst.done = 0 ∧ ∃ (t : Nat) (c : Call) (P : String), s.calls[t]? = some c ∧
                c.closing = some i ∧ Event.delete t P (some i) ∈ s.srv.log)
            ∨ (inst.done = 1 ∧ ∃ t, Event.close t i ∈ s.srv.log))
      ∧ (∀ (t : Nat) (P : String) (li : Nat) (err : Err),
          s.calls[t]? = some (Call.Lock (LockPC.giveUp P li err)) →
          s.srv.locks P = some li ∧
            s.step env (Action.run t Outcome.internal)
              = some { s with
                  srv := { s.srv with locks := mapDelete s.srv.locks P,
                                      log := Event.delete t P (some li) :: s.srv.log },
                  calls := s.calls.set t (Call.Lock (LockPC.wake P li err)) })
      ∧ (∀ (t : Nat) (P : String) (li : Nat) (unlockErr : Option Err),
          s.calls[t]? = some (Call.unlock (UnlockPC.delete P li unlockErr)) →
          s.srv.locks P = some li ∧
            s.step env (Action.run t Outcome.internal)
              = some { s with
                  srv := { s.srv with locks := mapDelete s.srv.locks P,
                                      log := Event.delete t P (some li) :: s.srv.log },
                  calls := s.calls.set t (Call.unlock (UnlockPC.close P li unlockErr)) })
      ∧ (∀ (t : Nat) (P : String) (li : Nat) (err : Err),
          s.calls[t]? = some (Call.Lock (LockPC.wake P li err)) →
          ∃ l, s.srv.insts[li]? = some ⟨l, 0⟩ ∧
            s.step env (Action.run t Outcome.internal)
              = some { s with
                  srv := { s.srv with insts := s.srv.insts.set li ⟨l, 1⟩,
                                      log := Event.close t li :: s.srv.log },
                  calls := s.calls.set t (Call.Lock (LockPC.ret none (some err))) })
      ∧ (∀ (t : Nat) (P : String) (li : Nat) (unlockErr : Option Err),
          s.calls[t]? = some (Call.unlock (UnlockPC.close P li unlockErr)) →
          ∃ l, s.srv.insts[li]? = some ⟨l, 0⟩ ∧
            s.step env (Action.run t Outcome.internal)
              = some { s with
                  srv := { s.srv with insts := s.srv.insts.set li ⟨l, 1⟩,
                                      log := Event.close t li :: s.srv.log },
                  calls := s.calls.set t (Call.unlock (UnlockPC.ret unlockErr)) }) := by
  have hinv := Inv_reach env root tr s hreach honce
  have hwf := WF_reach env root tr s hreach
  refine ⟨hinv.once, hinv.alive, ?_, hinv.order, ?_, ?_, ?_, ?_, ?_⟩
  · intro P i h
    obtain ⟨l, hl, _⟩ := hwf.reg P i h
    exact ⟨l, hl⟩
  · intro i inst hi
    rcases hinv.life i inst hi with h | ⟨hd, t, c, hc, hcl⟩ | h
    · exact Or.inl h
    · obtain ⟨P, hP⟩ := closing_past t c i hcl
      exact Or.inr (Or.inl ⟨hd, t, c, P, hc, hcl, hinv.past t c hc _ hP⟩)
    · exact Or.inr (Or.inr h)
  · intro t P li err hc
    have hreg : s.srv.locks P = some li := hinv.mine t _ hc P li rfl
    refine ⟨hreg, ?_⟩
    simp [State.step, hc, Server.Lock, hreg]
  · intro t P li unlockErr hc
    have hreg : s.srv.locks P = some li := hinv.mine t _ hc P li rfl
    refine ⟨hreg, ?_⟩
    simp [State.step, hc, Server.unlock, hreg]
  · intro t P li err hc
    obtain ⟨l, hl⟩ := hinv.fresh t _ hc li rfl
    refine ⟨l, hl, ?_⟩
    simp [State.step, hc, Server.Lock, Server.close, hl]
  · intro t P li unlockErr hc
    obtain ⟨l, hl⟩ := hinv.fresh t _ hc li rfl
    refine ⟨l, hl, ?_⟩
    simp [State.step, hc, Server.unlock, Server.close, hl]

theorem done_closed_once_at_removal_witness :
    State.exec demoEnv demoFailed (State.start "/r") = some demoWaking
      ∧ UnlockedAtMostOnce demoFailed
      ∧ demoWaking.calls[2]? = some (Call.Lock (LockPC.wake "/r/a/locks" 1 (Err.ext "no session")))
      ∧ (∀ (i : Nat) (inst : lockInstance), demoWaking.srv.insts[i]? = some inst → inst.done ≤ 1)
      ∧ (∀ (i : Nat) (inst : lockInstance), demoWaking.srv.insts[i]? = some inst →
          (inst.done = 0 ∧ ∃ P, demoWaking.srv.locks P = some i)
            ∨ (inst.done = 0 ∧ ∃ (t : Nat) (c : Call) (P : String), demoWaking.calls[t]? = some c ∧
                c.closing = some i ∧ Event.delete t P (some i) ∈ demoWaking.srv.log)
            ∨ (inst.done = 1 ∧ ∃ t, Event.close t i ∈ demoWaking.srv.log))
      ∧ ∃ l, demoWaking.srv.insts[1]? = some ⟨l, 0⟩ ∧
          demoWaking.step demoEnv (Action.run 2 Outcome.internal)
            = some { demoWaking with
                srv := { demoWaking.srv with insts := demoWaking.srv.insts.set 1 ⟨l, 1⟩,
                                             log := Event.close 2 1 :: demoWaking.srv.log },
                calls := demoWaking.calls.set 2
                  (Call.Lock (LockPC.ret none (some (Err.ext "no session")))) } :=
  have x := done_closed_once_at_removal demoEnv "/r" demoFailed demoWaking demoFailed_reaches
    (by decide)
  ⟨demoFailed_reaches, by decide, by decide, x.1, x.2.2.2.2.1,
    x.2.2.2.2.2.2.2.1 2 "/r/a/locks" 1 (Err.ext "no session") (by decide)⟩

end consultopo
